import Mathlib

/-!
# Orbital explorer: Kepler solver, state transform, ephemeris aggregator,
# orbit tessellator and simulation clock

Shallow embedding of `frontend/src/data/orbitMath.js` and
`frontend/src/hooks/useSimulationTime.js`.

Modelling conventions

* A JavaScript number is an element of a linearly ordered field `α` with a
  floor function (exact arithmetic; rounding, `NaN` and signed zero are outside
  the model).  The only non-finite value the code produces on purpose,
  `Infinity` as an orbital period, is `none` in an `Option α`.
* The platform functions `Math.PI`, `Math.sin`, `Math.cos`, `Math.sqrt` and
  `Math.atan2` are not code of the repository: they are the fields of a
  `JSMath α` record passed to every function.  `realMath` is the record of the
  exact real functions.
* `Math.pow(x, n)` and `x ** n` with a literal natural exponent are `x ^ n`;
  `Math.abs x` is `|x|`; `%` is the truncated remainder `jsRem`.
* A property that may be `undefined` is an `Option`; `!x` on such a number is
  "absent or zero".
* A `Map` is an association list whose newest binding shadows older ones.
-/

namespace OrbitMath

/-- The platform math library used by `orbitMath.js`. -/
structure JSMath (α : Type) where
  PI : α
  sin : α → α
  cos : α → α
  sqrt : α → α
  atan2 : α → α → α

/-- A point `{ x, y, z }`. -/
structure Vec3 (α : Type) where
  x : α
  y : α
  z : α
deriving DecidableEq, Repr

/-- The `orbit` record of a body. -/
structure OrbitalElements (α : Type) where
  parent : Option String
  semiMajorAxis : Option α
  eccentricity : α
  inclination : α
  longitudeOfAscendingNode : α
  argumentOfPeriapsis : α
  meanAnomalyAtEpoch : α
deriving DecidableEq, Repr

/-- An authored body of the catalogue. -/
structure Body (α : Type) where
  name : String
  radius : Option α
  color : Option String
  isLightSource : Bool
  focusable : Bool
  orbit : Option (OrbitalElements α)
deriving DecidableEq, Repr

/-- The record returned by `elementsToCartesian`; `orbitalPeriod = none` is
`Infinity`. -/
structure Ephemeris (α : Type) where
  position : Vec3 α
  radiusVector : α
  trueAnomaly : α
  orbitalPlanePosition : α × α
  orbitalPeriod : Option α
deriving DecidableEq, Repr

/-- An entry of `bodiesWithState`: the spread body plus the derived fields
(`orbitalPeriodDays = none` is `null`, `trueAnomaly = none` is an absent key). -/
structure BodyState (α : Type) where
  body : Body α
  position : Vec3 α
  relativePosition : Vec3 α
  orbitalPeriodDays : Option α
  distanceFromOrigin : α
  distanceFromParent : α
  trueAnomaly : Option α
deriving DecidableEq, Repr

/-- The `summary` record. -/
structure Summary where
  fastestOrbiter : String
  farthestBody : String
deriving DecidableEq, Repr

/-- The value returned by `computeEphemerides`. -/
structure EphemerisResult (α : Type) where
  bodiesWithState : List (BodyState α)
  summary : Summary

/-- The loop variables of `computeEphemerides`. -/
structure PassState (α : Type) where
  absolutePositions : List (String × Vec3 α)
  bodiesWithState : List (BodyState α)
  fastestOrbiter : Option (BodyState α)
  farthestBody : Option (BodyState α)

/-- The accumulated time and the `lastTickRef` cell of `useSimulationTime`. -/
structure ClockState (α : Type) where
  time : α
  lastTick : Option α
deriving DecidableEq, Repr

/-- The hook instance: its current props and its state. -/
structure Hook (α : Type) where
  speed : α
  paused : Bool
  clock : ClockState α
deriving DecidableEq, Repr

section Code

variable {α : Type} [LinearOrderedField α] [FloorRing α]

/-- The origin `{ x: 0, y: 0, z: 0 }`. -/
def Vec3.origin : Vec3 α := ⟨0, 0, 0⟩

/-- `const DEG2RAD = Math.PI / 180`. -/
def DEG2RAD (m : JSMath α) : α := m.PI / 180

/-- `const TWO_PI = Math.PI * 2`. -/
def TWO_PI (m : JSMath α) : α := m.PI * 2

/-- `const GAUSSIAN_GM = Math.pow(0.01720209895, 2)`. -/
def GAUSSIAN_GM : α := (0.01720209895 : α) ^ 2

/-- Truncation toward zero, the integer quotient of the `%` operator. -/
def truncate (q : α) : ℤ := if 0 ≤ q then ⌊q⌋ else ⌈q⌉

/-- The remainder operator `x % y` (sign of the dividend). -/
def jsRem (x y : α) : α := x - y * (truncate (x / y) : α)

/-- `normalizeAngle(angle)`. -/
def normalizeAngle (m : JSMath α) (angle : α) : α :=
  let value := jsRem angle (TWO_PI m)
  if value < 0 then value + TWO_PI m else value

/-- The `for` loop of `solveKepler`: `fuel` iterations are left and
`eccentricAnomaly` is the current estimate. -/
def keplerLoop (m : JSMath α) (meanAnomaly eccentricity : α) : Nat → α → α
  | 0, eccentricAnomaly => eccentricAnomaly
  | fuel + 1, eccentricAnomaly =>
    let f := eccentricAnomaly - eccentricity * m.sin eccentricAnomaly - meanAnomaly
    let fPrime := 1 - eccentricity * m.cos eccentricAnomaly
    let delta := f / fPrime
    let next := eccentricAnomaly - delta
    if |delta| < (1e-8 : α) then next else keplerLoop m meanAnomaly eccentricity fuel next

/-- `solveKepler(meanAnomaly, eccentricity)`: at most 12 Newton steps. -/
def solveKepler (m : JSMath α) (meanAnomaly eccentricity : α) : α :=
  keplerLoop m meanAnomaly eccentricity 12
    (if eccentricity > (0.8 : α) then m.PI else meanAnomaly)

/-- The basis vectors `u`, `v` and the point `u * xOrbital + v * yOrbital`
(lines 75-92, repeated at lines 204-217 and 236-240). -/
def rotateToParent (m : JSMath α) (i omega w xOrbital yOrbital : α) : Vec3 α :=
  let cosOmega := m.cos omega
  let sinOmega := m.sin omega
  let cosI := m.cos i
  let sinI := m.sin i
  let cosW := m.cos w
  let sinW := m.sin w
  let ux := cosOmega * cosW - sinOmega * sinW * cosI
  let uy := sinOmega * cosW + cosOmega * sinW * cosI
  let uz := sinW * sinI
  let vx := -cosOmega * sinW - sinOmega * cosW * cosI
  let vy := -sinOmega * sinW + cosOmega * cosW * cosI
  let vz := cosW * sinI
  ⟨ux * xOrbital + vx * yOrbital, uy * xOrbital + vy * yOrbital,
    uz * xOrbital + vz * yOrbital⟩

/-- The record returned on the degenerate path (`!a || a <= 0`). -/
def degenerateEphemeris : Ephemeris α :=
  { position := ⟨0, 0, 0⟩, radiusVector := 0, trueAnomaly := 0,
    orbitalPlanePosition := (0, 0), orbitalPeriod := none }

/-- `TWO_PI / meanMotion`, which is `Infinity` when `meanMotion` is zero. -/
def periodOf (m : JSMath α) (meanMotion : α) : Option α :=
  if meanMotion = 0 then none else some (TWO_PI m / meanMotion)

/-- The non-degenerate path of `elementsToCartesian` (lines 56-102). -/
def elementsToCartesianAt (m : JSMath α) (elements : OrbitalElements α) (a deltaDays : α) :
    Ephemeris α :=
  let e := elements.eccentricity
  let i := elements.inclination * DEG2RAD m
  let omega := elements.longitudeOfAscendingNode * DEG2RAD m
  let w := elements.argumentOfPeriapsis * DEG2RAD m
  let meanMotion := m.sqrt (GAUSSIAN_GM / a ^ 3)
  let M0 := elements.meanAnomalyAtEpoch * DEG2RAD m
  let M := normalizeAngle m (M0 + meanMotion * deltaDays)
  let E := solveKepler m M e
  let cosE := m.cos E
  let sinE := m.sin E
  let trueAnomaly := m.atan2 (m.sqrt (1 - e * e) * sinE) (cosE - e)
  let radiusVector := a * (1 - e * cosE)
  let xOrbital := radiusVector * m.cos trueAnomaly
  let yOrbital := radiusVector * m.sin trueAnomaly
  { position := rotateToParent m i omega w xOrbital yOrbital,
    radiusVector := radiusVector,
    trueAnomaly := trueAnomaly,
    orbitalPlanePosition := (xOrbital, yOrbital),
    orbitalPeriod := periodOf m meanMotion }

/-- `elementsToCartesian(elements, deltaDays)`. -/
def elementsToCartesian (m : JSMath α) (elements : OrbitalElements α) (deltaDays : α) :
    Ephemeris α :=
  match elements.semiMajorAxis with
  | none => degenerateEphemeris
  | some a =>
    if a = 0 ∨ a ≤ 0 then degenerateEphemeris
    else elementsToCartesianAt m elements a deltaDays

/-- `absolutePositions.get(key)`; a body without `orbit.parent` looks up
`undefined`, which no named body is stored under. -/
def mapGet (positions : List (String × Vec3 α)) (key : Option String) : Option (Vec3 α) :=
  match key with
  | none => none
  | some name => positions.lookup name

/-- The entry pushed for a body without `orbit` (lines 114-121). -/
def stationaryEntry (body : Body α) : BodyState α :=
  { body := body, position := ⟨0, 0, 0⟩, relativePosition := ⟨0, 0, 0⟩,
    orbitalPeriodDays := none, distanceFromOrigin := 0, distanceFromParent := 0,
    trueAnomaly := none }

/-- The entry pushed for a body with `orbit` (lines 130-166). -/
def orbitingEntry (m : JSMath α) (timeDays : α) (positions : List (String × Vec3 α))
    (body : Body α) (orbit : OrbitalElements α) : BodyState α :=
  let parentPosition := (mapGet positions orbit.parent).getD ⟨0, 0, 0⟩
  let ephemeris := elementsToCartesian m orbit timeDays
  let absolutePosition : Vec3 α :=
    ⟨parentPosition.x + ephemeris.position.x, parentPosition.y + ephemeris.position.y,
      parentPosition.z + ephemeris.position.z⟩
  let distanceFromParent :=
    m.sqrt (ephemeris.position.x ^ 2 + ephemeris.position.y ^ 2 + ephemeris.position.z ^ 2)
  let distanceFromOrigin :=
    m.sqrt (absolutePosition.x ^ 2 + absolutePosition.y ^ 2 + absolutePosition.z ^ 2)
  { body := body, position := absolutePosition, relativePosition := ephemeris.position,
    orbitalPeriodDays := ephemeris.orbitalPeriod,
    distanceFromOrigin := distanceFromOrigin, distanceFromParent := distanceFromParent,
    trueAnomaly := some ephemeris.trueAnomaly }

/-- The test of lines 171-174: `orbitalPeriodDays` is truthy and there is no
fastest orbiter yet or the period is smaller than its period (a `null`
period on the right-hand side of `<` is `0`). -/
def isFaster (entry : BodyState α) (fastestOrbiter : Option (BodyState α)) : Bool :=
  match entry.orbitalPeriodDays with
  | none => false
  | some period =>
    if period = 0 then false
    else
      match fastestOrbiter with
      | none => true
      | some fastest => decide (period < fastest.orbitalPeriodDays.getD 0)

/-- The test of lines 177-180: there is no farthest body yet or the distance
exceeds `farthestBody.distanceFromOrigin || -Infinity`. -/
def isFarther (entry : BodyState α) (farthestBody : Option (BodyState α)) : Bool :=
  match farthestBody with
  | none => true
  | some farthest =>
    if farthest.distanceFromOrigin = 0 then true
    else decide (entry.distanceFromOrigin > farthest.distanceFromOrigin)

/-- One iteration of the `for (const body of bodies)` loop. -/
def passStep (m : JSMath α) (timeDays : α) (st : PassState α) (body : Body α) : PassState α :=
  match body.orbit with
  | none =>
    let entry := stationaryEntry body
    { absolutePositions := (body.name, entry.position) :: st.absolutePositions,
      bodiesWithState := st.bodiesWithState ++ [entry],
      fastestOrbiter := st.fastestOrbiter,
      farthestBody := if st.farthestBody.isNone then some entry else st.farthestBody }
  | some orbit =>
    let entry := orbitingEntry m timeDays st.absolutePositions body orbit
    { absolutePositions := (body.name, entry.position) :: st.absolutePositions,
      bodiesWithState := st.bodiesWithState ++ [entry],
      fastestOrbiter := if isFaster entry st.fastestOrbiter then some entry else st.fastestOrbiter,
      farthestBody := if isFarther entry st.farthestBody then some entry else st.farthestBody }

/-- The loop variables before the first body. -/
def PassState.init : PassState α :=
  { absolutePositions := [], bodiesWithState := [], fastestOrbiter := none, farthestBody := none }

/-- The whole `for` loop of `computeEphemerides`. -/
def runPass (m : JSMath α) (timeDays : α) (bodies : List (Body α)) : PassState α :=
  bodies.foldl (passStep m timeDays) PassState.init

/-- The `x ? x.name : "-"` of the summary. -/
def nameOrDash (entry : Option (BodyState α)) : String :=
  match entry with
  | some e => e.body.name
  | none => "-"

/-- `computeEphemerides(bodies, timeDays)`. -/
def computeEphemerides (m : JSMath α) (bodies : List (Body α)) (timeDays : α) :
    EphemerisResult α :=
  let st := runPass m timeDays bodies
  { bodiesWithState := st.bodiesWithState,
    summary := { fastestOrbiter := nameOrDash st.fastestOrbiter,
                 farthestBody := nameOrDash st.farthestBody } }

/-- `x || 0` on a number. -/
def orZero (x : α) : α := if x = 0 then 0 else x

/-- The body of the `for (index ...)` loop of `generateOrbitVertices`. -/
def orbitVertex (m : JSMath α) (elements : OrbitalElements α) (a : α) (segments index : Nat) :
    Vec3 α :=
  let e := elements.eccentricity
  let i := orZero elements.inclination * DEG2RAD m
  let omega := orZero elements.longitudeOfAscendingNode * DEG2RAD m
  let w := orZero elements.argumentOfPeriapsis * DEG2RAD m
  let fraction := (index : α) / (segments : α)
  let meanAnomaly := TWO_PI m * fraction
  let eccentricAnomaly := solveKepler m meanAnomaly e
  let cosE := m.cos eccentricAnomaly
  let sinE := m.sin eccentricAnomaly
  let radiusVector := a * (1 - e * cosE)
  let trueAnomaly := m.atan2 (m.sqrt (1 - e * e) * sinE) (cosE - e)
  let xOrbital := radiusVector * m.cos trueAnomaly
  let yOrbital := radiusVector * m.sin trueAnomaly
  rotateToParent m i omega w xOrbital yOrbital

/-- `generateOrbitVertices(elements, segments)`. -/
def generateOrbitVertices (m : JSMath α) (elements : Option (OrbitalElements α))
    (segments : Nat) : List (Vec3 α) :=
  match elements with
  | none => []
  | some el =>
    match el.semiMajorAxis with
    | none => []
    | some a =>
      if a = 0 then []
      else (List.range (segments + 1)).map (orbitVertex m el a segments)

/-- `update(now)` inside `useSimulationTime` for the props `speed`, `paused`
(the re-scheduling of the next frame is the caller's next `update`). -/
def update (speed : α) (paused : Bool) (s : ClockState α) (now : α) : ClockState α :=
  let last :=
    match s.lastTick with
    | none => now
    | some t => if t = 0 then now else t
  let deltaSeconds := (now - last) / 1000
  { lastTick := some now,
    time := if !paused then s.time + deltaSeconds * speed else s.time }

/-- A render with new props: the effect depends on `[speed, paused]`, so when
one of them changed its cleanup and its body run and clear `lastTickRef`. -/
def Hook.render (h : Hook α) (speed : α) (paused : Bool) : Hook α :=
  if speed = h.speed ∧ paused = h.paused then h
  else { speed := speed, paused := paused,
         clock := { time := h.clock.time, lastTick := none } }

/-- An animation frame at timestamp `now`. -/
def Hook.frame (h : Hook α) (now : α) : Hook α :=
  { h with clock := update h.speed h.paused h.clock now }

/-- What can happen to a mounted hook: a render with props, or an animation
frame delivered by `requestAnimationFrame`. -/
inductive HookEvent (α : Type) where
  | render (speed : α) (paused : Bool)
  | frame (now : α)

/-- The hook after its first render: `useState(0)`, and the effect has just
set `lastTickRef.current = undefined`. -/
def Hook.mount (speed : α) (paused : Bool) : Hook α :=
  { speed := speed, paused := paused, clock := { time := 0, lastTick := none } }

/-- One event applied to the hook. -/
def Hook.step (h : Hook α) : HookEvent α → Hook α
  | HookEvent.render speed paused => h.render speed paused
  | HookEvent.frame now => h.frame now

/-- A sequence of events applied to the hook, oldest first. -/
def Hook.run (h : Hook α) (events : List (HookEvent α)) : Hook α :=
  events.foldl Hook.step h

end Code

/-- The exact real instance of the platform math library; `atan2 y x` is the
argument of `x + y i`, in `(-π, π]`. -/
noncomputable def realMath : JSMath ℝ :=
  { PI := Real.pi, sin := Real.sin, cos := Real.cos, sqrt := Real.sqrt,
    atan2 := fun y x => Complex.arg ⟨x, y⟩ }

/-! ## Definitions used to state the properties -/

section SpecDefs

variable {α : Type} [LinearOrderedField α] [FloorRing α]

/-- The entry that one loop iteration pushes, given the map built so far. -/
def entryFor (m : JSMath α) (timeDays : α) (positions : List (String × Vec3 α))
    (body : Body α) : BodyState α :=
  match body.orbit with
  | none => stationaryEntry body
  | some orbit => orbitingEntry m timeDays positions body orbit

/-- The map that the loop has built after pushing the entries `states`. -/
def positionsOf (states : List (BodyState α)) : List (String × Vec3 α) :=
  (states.map (fun s => (s.body.name, s.position))).reverse

/-- The absolute position computed for the latest body named `parent` among
the entries `earlier`, the origin when there is none. -/
def parentPositionBefore (earlier : List (BodyState α)) (parent : Option String) : Vec3 α :=
  match parent with
  | none => ⟨0, 0, 0⟩
  | some name =>
    match earlier.reverse.find? (fun s => s.body.name = name) with
    | some s => s.position
    | none => ⟨0, 0, 0⟩

/-- The vertex that the loop body of `generateOrbitVertices` computes from a
mean anomaly (lines 224-240). -/
def vertexAtAnomaly (m : JSMath α) (elements : OrbitalElements α) (a meanAnomaly : α) :
    Vec3 α :=
  let e := elements.eccentricity
  let i := orZero elements.inclination * DEG2RAD m
  let omega := orZero elements.longitudeOfAscendingNode * DEG2RAD m
  let w := orZero elements.argumentOfPeriapsis * DEG2RAD m
  let eccentricAnomaly := solveKepler m meanAnomaly e
  let cosE := m.cos eccentricAnomaly
  let sinE := m.sin eccentricAnomaly
  let radiusVector := a * (1 - e * cosE)
  let trueAnomaly := m.atan2 (m.sqrt (1 - e * e) * sinE) (cosE - e)
  let xOrbital := radiusVector * m.cos trueAnomaly
  let yOrbital := radiusVector * m.sin trueAnomaly
  rotateToParent m i omega w xOrbital yOrbital

end SpecDefs

/-- A central body without orbit. -/
def sun : Body ℝ :=
  { name := "Sun", radius := some 1, color := none, isLightSource := true, focusable := true,
    orbit := none }

/-- A circular, uninclined orbit of one astronomical unit around `"Sun"`. -/
def earthOrbit : OrbitalElements ℝ :=
  { parent := some "Sun", semiMajorAxis := some 1, eccentricity := 0, inclination := 0,
    longitudeOfAscendingNode := 0, argumentOfPeriapsis := 0, meanAnomalyAtEpoch := 0 }

/-- A body on `earthOrbit`. -/
def earth : Body ℝ :=
  { name := "Earth", radius := none, color := none, isLightSource := false, focusable := true,
    orbit := some earthOrbit }

/-- Elements with a negative `semiMajorAxis`. -/
def degenerateOrbit : OrbitalElements ℝ :=
  { parent := some "Sun", semiMajorAxis := some (-1), eccentricity := 0.5, inclination := 10,
    longitudeOfAscendingNode := 20, argumentOfPeriapsis := 30, meanAnomalyAtEpoch := 40 }

/-- A body on `degenerateOrbit`. -/
def ghost : Body ℝ :=
  { name := "Ghost", radius := none, color := none, isLightSource := false, focusable := true,
    orbit := some degenerateOrbit }

/-- A body on `earthOrbit` whose name is the sentinel of the summary. -/
def dashPlanet : Body ℝ :=
  { name := "-", radius := none, color := none, isLightSource := false, focusable := true,
    orbit := some earthOrbit }

/-- A body without orbit whose name is the sentinel of the summary. -/
def dashStar : Body ℝ :=
  { name := "-", radius := none, color := none, isLightSource := true, focusable := true,
    orbit := none }

/-- Elements of a very eccentric orbit in the reference plane. -/
def cometOrbit : OrbitalElements ℝ :=
  { parent := some "Sun", semiMajorAxis := some 1, eccentricity := 0.9999, inclination := 0,
    longitudeOfAscendingNode := 0, argumentOfPeriapsis := 0, meanAnomalyAtEpoch := 0 }

/-- Started within `bound` above the root `root` (and at most `π`), the loop
with `fuel` iterations ends within `5e-7` above the root. -/
def ConvergesWithin (M e root : ℝ) (fuel : Nat) (bound : ℝ) : Prop :=
  ∀ E : ℝ, root ≤ E → E ≤ Real.pi → E - root ≤ bound →
    root ≤ keplerLoop realMath M e fuel E
      ∧ keplerLoop realMath M e fuel E ≤ Real.pi
      ∧ keplerLoop realMath M e fuel E - root ≤ 5e-7

/-! ## The aggregator pass -/

section Pass

variable {α : Type} [LinearOrderedField α] [FloorRing α]

theorem passStep_bodiesWithState (m : JSMath α) (t : α) (st : PassState α) (b : Body α) :
    (passStep m t st b).bodiesWithState
      = st.bodiesWithState ++ [entryFor m t st.absolutePositions b] := by
  unfold passStep entryFor
  cases b.orbit <;> rfl

theorem passStep_absolutePositions (m : JSMath α) (t : α) (st : PassState α) (b : Body α) :
    (passStep m t st b).absolutePositions
      = (b.name, (entryFor m t st.absolutePositions b).position) :: st.absolutePositions := by
  unfold passStep entryFor
  cases b.orbit <;> rfl

theorem entryFor_body (m : JSMath α) (t : α) (ps : List (String × Vec3 α)) (b : Body α) :
    (entryFor m t ps b).body = b := by
  unfold entryFor
  cases b.orbit <;> rfl

theorem runPass_append_singleton (m : JSMath α) (t : α) (bodies : List (Body α)) (b : Body α) :
    runPass m t (bodies ++ [b]) = passStep m t (runPass m t bodies) b := by
  simp [runPass, List.foldl_append]

theorem runPass_positions (m : JSMath α) (t : α) (bodies : List (Body α)) :
    (runPass m t bodies).absolutePositions = positionsOf (runPass m t bodies).bodiesWithState := by
  induction bodies using List.reverseRecOn with
  | nil => rfl
  | append_singleton l b ih =>
    rw [runPass_append_singleton, passStep_absolutePositions, passStep_bodiesWithState, ih]
    simp [positionsOf, entryFor_body]

theorem foldl_passStep_states (m : JSMath α) (t : α) (bodies : List (Body α)) :
    ∀ st : PassState α, ∃ suffix : List (BodyState α),
      (bodies.foldl (passStep m t) st).bodiesWithState = st.bodiesWithState ++ suffix
        ∧ suffix.length = bodies.length := by
  induction bodies with
  | nil => intro st; exact ⟨[], by simp, rfl⟩
  | cons b rest ih =>
    intro st
    obtain ⟨suffix, h1, h2⟩ := ih (passStep m t st b)
    refine ⟨entryFor m t st.absolutePositions b :: suffix, ?_, by simp [h2]⟩
    rw [List.foldl_cons, h1, passStep_bodiesWithState]
    simp

theorem runPass_length (m : JSMath α) (t : α) (bodies : List (Body α)) :
    (runPass m t bodies).bodiesWithState.length = bodies.length := by
  obtain ⟨suffix, h1, h2⟩ := foldl_passStep_states m t bodies PassState.init
  unfold runPass
  rw [h1]
  simp [PassState.init, h2]

/-- Splitting the pass at index `k`: the entries before `k` are those of the
pass over the first `k` bodies and the `k`-th entry is the one pushed next. -/
theorem runPass_split (m : JSMath α) (t : α) (bodies : List (Body α)) (k : Nat) (b : Body α)
    (hb : bodies[k]? = some b) :
    (runPass m t bodies).bodiesWithState.take k = (runPass m t (bodies.take k)).bodiesWithState
    ∧ (runPass m t bodies).bodiesWithState[k]?
        = some (entryFor m t (runPass m t (bodies.take k)).absolutePositions b) := by
  have hk : k < bodies.length := by
    rcases Nat.lt_or_ge k bodies.length with h | h
    · exact h
    · rw [List.getElem?_eq_none h] at hb; cases hb
  have hsplit : bodies = bodies.take k ++ b :: bodies.drop (k + 1) := by
    have hget : bodies[k] = b := by
      rw [List.getElem?_eq_getElem hk] at hb; exact Option.some.inj hb
    rw [← hget, ← List.drop_eq_getElem_cons hk, List.take_append_drop]
  have hlen : (runPass m t (bodies.take k)).bodiesWithState.length = k := by
    rw [runPass_length, List.length_take]; omega
  obtain ⟨suffix, h1, _⟩ :=
    foldl_passStep_states m t (bodies.drop (k + 1)) (passStep m t (runPass m t (bodies.take k)) b)
  have hstates : (runPass m t bodies).bodiesWithState
      = (runPass m t (bodies.take k)).bodiesWithState
          ++ entryFor m t (runPass m t (bodies.take k)).absolutePositions b :: suffix := by
    conv_lhs => rw [hsplit]
    unfold runPass at h1 ⊢
    rw [List.foldl_append, List.foldl_cons, h1, passStep_bodiesWithState]
    simp
  constructor
  · rw [hstates, List.take_left' hlen]
  · rw [hstates, List.getElem?_append_right (by omega), hlen]
    simp

theorem mapGet_positionsOf (states : List (BodyState α)) (parent : Option String) :
    (mapGet (positionsOf states) parent).getD ⟨0, 0, 0⟩ = parentPositionBefore states parent := by
  cases parent with
  | none => rfl
  | some name =>
    simp only [mapGet, parentPositionBefore, positionsOf]
    rw [← List.map_reverse]
    induction states.reverse with
    | nil => rfl
    | cons s rest ih =>
      by_cases h : s.body.name = name
      · simp [List.lookup, List.find?, h]
      · have h' : (name == s.body.name) = false := by
          simp [beq_eq_false_iff_ne, Ne.symm h]
        simp only [List.map_cons, List.lookup, h', List.find?, h, decide_False]
        exact ih

theorem passStep_fastestOrbiter (m : JSMath α) (t : α) (st : PassState α) (b : Body α) :
    (passStep m t st b).fastestOrbiter
      = if isFaster (entryFor m t st.absolutePositions b) st.fastestOrbiter
        then some (entryFor m t st.absolutePositions b) else st.fastestOrbiter := by
  unfold passStep entryFor
  cases b.orbit with
  | none => simp [isFaster, stationaryEntry]
  | some orbit => rfl

theorem elementsToCartesian_period_ne_zero (m : JSMath α) (hPI : m.PI ≠ 0)
    (orbit : OrbitalElements α) (t p : α)
    (hp : (elementsToCartesian m orbit t).orbitalPeriod = some p) : p ≠ 0 := by
  unfold elementsToCartesian at hp
  cases ha : orbit.semiMajorAxis with
  | none => simp [ha, degenerateEphemeris] at hp
  | some a =>
    simp only [ha] at hp
    split_ifs at hp with hdeg
    · simp [degenerateEphemeris] at hp
    · simp only [elementsToCartesianAt, periodOf] at hp
      split_ifs at hp with hzero
      have hp' := Option.some.inj hp
      rw [← hp']
      exact div_ne_zero (mul_ne_zero hPI two_ne_zero) hzero

theorem entryFor_period_ne_zero (m : JSMath α) (hPI : m.PI ≠ 0) (t : α)
    (ps : List (String × Vec3 α)) (b : Body α) (p : α)
    (hp : (entryFor m t ps b).orbitalPeriodDays = some p) : p ≠ 0 := by
  unfold entryFor at hp
  cases hb : b.orbit with
  | none => simp [hb, stationaryEntry] at hp
  | some orbit =>
    simp only [hb, orbitingEntry] at hp
    exact elementsToCartesian_period_ne_zero m hPI orbit t p hp

/-- The running fastest orbiter is an entry of minimal defined period. -/
theorem runPass_fastestOrbiter (m : JSMath α) (hPI : m.PI ≠ 0) (t : α) (bodies : List (Body α)) :
    ((runPass m t bodies).fastestOrbiter = none →
        ∀ s ∈ (runPass m t bodies).bodiesWithState, s.orbitalPeriodDays = none)
    ∧ ∀ f, (runPass m t bodies).fastestOrbiter = some f →
        f ∈ (runPass m t bodies).bodiesWithState
        ∧ ∃ p, f.orbitalPeriodDays = some p
          ∧ ∀ s ∈ (runPass m t bodies).bodiesWithState, ∀ q,
              s.orbitalPeriodDays = some q → p ≤ q := by
  induction bodies using List.reverseRecOn with
  | nil => exact ⟨fun _ s hs => (by cases hs), fun f hf => (by cases hf)⟩
  | append_singleton l b ih =>
    obtain ⟨ihnone, ihsome⟩ := ih
    rw [runPass_append_singleton, passStep_fastestOrbiter, passStep_bodiesWithState]
    generalize hentry : entryFor m t (runPass m t l).absolutePositions b = e
    have hne : ∀ p, e.orbitalPeriodDays = some p → p ≠ 0 := by
      intro p hp
      rw [← hentry] at hp
      exact entryFor_period_ne_zero m hPI t _ b p hp
    cases hper : e.orbitalPeriodDays with
    | none =>
      have hfalse : isFaster e (runPass m t l).fastestOrbiter = false := by
        simp [isFaster, hper]
      simp only [hfalse, Bool.false_eq_true, if_false, List.mem_append, List.mem_singleton]
      refine ⟨?_, ?_⟩
      · intro h s hs
        rcases hs with hs | hs
        · exact ihnone h s hs
        · rw [hs]; exact hper
      · intro f hf
        obtain ⟨hmem, p, hp, hmin⟩ := ihsome f hf
        refine ⟨Or.inl hmem, p, hp, ?_⟩
        intro s hs q hq
        rcases hs with hs | hs
        · exact hmin s hs q hq
        · rw [hs, hper] at hq; cases hq
    | some p =>
      have hp0 : p ≠ 0 := hne p hper
      cases hfast : (runPass m t l).fastestOrbiter with
      | none =>
        have htrue : isFaster e none = true := by
          simp [isFaster, hper, hp0]
        simp only [htrue, if_true, List.mem_append, List.mem_singleton]
        refine ⟨fun h => (by cases h), ?_⟩
        intro f hf
        have hfe : e = f := Option.some.inj hf
        subst hfe
        refine ⟨Or.inr rfl, p, hper, ?_⟩
        intro s hs q hq
        rcases hs with hs | hs
        · rw [ihnone hfast s hs] at hq; cases hq
        · rw [hs, hper] at hq
          exact le_of_eq (Option.some.inj hq)
      | some f0 =>
        obtain ⟨hmem, p0, hp0', hmin⟩ := ihsome f0 hfast
        by_cases hlt : p < p0
        · have htrue : isFaster e (some f0) = true := by
            simp [isFaster, hper, hp0, hp0', hlt]
          simp only [htrue, if_true, List.mem_append, List.mem_singleton]
          refine ⟨fun h => (by cases h), ?_⟩
          intro f hf
          have hfe : e = f := Option.some.inj hf
          subst hfe
          refine ⟨Or.inr rfl, p, hper, ?_⟩
          intro s hs q hq
          rcases hs with hs | hs
          · exact le_trans (le_of_lt hlt) (hmin s hs q hq)
          · rw [hs, hper] at hq
            exact le_of_eq (Option.some.inj hq)
        · have hfalse : isFaster e (some f0) = false := by
            simp [isFaster, hper, hp0, hp0', hlt]
          simp only [hfalse, Bool.false_eq_true, if_false, List.mem_append, List.mem_singleton]
          refine ⟨fun h => (by cases h), ?_⟩
          intro f hf
          have hfe : f0 = f := Option.some.inj hf
          subst hfe
          refine ⟨Or.inl hmem, p0, hp0', ?_⟩
          intro s hs q hq
          rcases hs with hs | hs
          · exact hmin s hs q hq
          · rw [hs, hper] at hq
            rw [← Option.some.inj hq]
            exact not_lt.mp hlt

theorem entryFor_distance_nonneg (m : JSMath α) (hsqrt : ∀ x, 0 ≤ m.sqrt x) (t : α)
    (ps : List (String × Vec3 α)) (b : Body α) :
    0 ≤ (entryFor m t ps b).distanceFromOrigin := by
  unfold entryFor
  cases b.orbit with
  | none => simp [stationaryEntry]
  | some orbit => simp only [orbitingEntry]; exact hsqrt _

theorem runPass_distance_nonneg (m : JSMath α) (hsqrt : ∀ x, 0 ≤ m.sqrt x) (t : α)
    (bodies : List (Body α)) :
    ∀ s ∈ (runPass m t bodies).bodiesWithState, 0 ≤ s.distanceFromOrigin := by
  induction bodies using List.reverseRecOn with
  | nil => intro s hs; cases hs
  | append_singleton l b ih =>
    rw [runPass_append_singleton, passStep_bodiesWithState]
    intro s hs
    rcases List.mem_append.mp hs with hs | hs
    · exact ih s hs
    · rw [List.mem_singleton.mp hs]
      exact entryFor_distance_nonneg m hsqrt t _ b

theorem passStep_farthestBody (m : JSMath α) (t : α) (st : PassState α) (b : Body α) :
    (passStep m t st b).farthestBody
      = match b.orbit with
        | none => if st.farthestBody.isNone then some (entryFor m t st.absolutePositions b)
                  else st.farthestBody
        | some _ => if isFarther (entryFor m t st.absolutePositions b) st.farthestBody
                    then some (entryFor m t st.absolutePositions b) else st.farthestBody := by
  unfold passStep entryFor
  cases b.orbit <;> rfl

/-- The running farthest body is an entry of maximal distance from the origin,
and it is unset only before the first body. -/
theorem runPass_farthestBody (m : JSMath α) (hsqrt : ∀ x, 0 ≤ m.sqrt x) (t : α)
    (bodies : List (Body α)) :
    ((runPass m t bodies).farthestBody = none → bodies = [])
    ∧ ∀ f, (runPass m t bodies).farthestBody = some f →
        f ∈ (runPass m t bodies).bodiesWithState
        ∧ ∀ s ∈ (runPass m t bodies).bodiesWithState,
            s.distanceFromOrigin ≤ f.distanceFromOrigin := by
  induction bodies using List.reverseRecOn with
  | nil => exact ⟨fun _ => rfl, fun f hf => (by cases hf)⟩
  | append_singleton l b ih =>
    obtain ⟨ihnone, ihsome⟩ := ih
    have hnonneg := runPass_distance_nonneg m hsqrt t l
    have hentry0 := entryFor_distance_nonneg m hsqrt t (runPass m t l).absolutePositions b
    have hstat : b.orbit = none →
        (entryFor m t (runPass m t l).absolutePositions b).distanceFromOrigin = 0 := by
      intro h; simp [entryFor, h, stationaryEntry]
    rw [runPass_append_singleton, passStep_farthestBody, passStep_bodiesWithState]
    generalize entryFor m t (runPass m t l).absolutePositions b = e at hentry0 hstat
    have key : ∀ f0, (runPass m t l).farthestBody = some f0 →
        ∀ f, (if e.distanceFromOrigin ≤ f0.distanceFromOrigin then f0 else e) = f →
        f ∈ (runPass m t l).bodiesWithState ++ [e]
        ∧ ∀ s ∈ (runPass m t l).bodiesWithState ++ [e],
            s.distanceFromOrigin ≤ f.distanceFromOrigin := by
      intro f0 hf0 f hf
      obtain ⟨hmem, hmax⟩ := ihsome f0 hf0
      split_ifs at hf with hle
      · subst hf
        refine ⟨List.mem_append.mpr (Or.inl hmem), ?_⟩
        intro s hs
        rcases List.mem_append.mp hs with hs | hs
        · exact hmax s hs
        · rw [List.mem_singleton.mp hs]; exact hle
      · subst hf
        refine ⟨List.mem_append.mpr (Or.inr (List.mem_singleton.mpr rfl)), ?_⟩
        intro s hs
        rcases List.mem_append.mp hs with hs | hs
        · exact le_trans (hmax s hs) (le_of_lt (not_le.mp hle))
        · rw [List.mem_singleton.mp hs]
    have first : (runPass m t l).farthestBody = none →
        ∀ f, e = f → f ∈ (runPass m t l).bodiesWithState ++ [e]
        ∧ ∀ s ∈ (runPass m t l).bodiesWithState ++ [e],
            s.distanceFromOrigin ≤ f.distanceFromOrigin := by
      intro hnone f hf
      subst hf
      have hl : l = [] := ihnone hnone
      subst hl
      simp [runPass, PassState.init]
    cases hfar : (runPass m t l).farthestBody with
    | none =>
      cases horb : b.orbit with
      | none =>
        simp only [Option.isNone_none, if_true]
        exact ⟨fun h => (by cases h), fun f hf => first hfar f (Option.some.inj hf)⟩
      | some orbit =>
        simp only [isFarther, if_true]
        exact ⟨fun h => (by cases h), fun f hf => first hfar f (Option.some.inj hf)⟩
    | some f0 =>
      have hf0nonneg : 0 ≤ f0.distanceFromOrigin := hnonneg f0 (ihsome f0 hfar).1
      cases horb : b.orbit with
      | none =>
        simp only [Option.isNone_some, Bool.false_eq_true, if_false]
        refine ⟨fun h => (by cases h), fun f hf => ?_⟩
        refine key f0 hfar f ?_
        rw [if_pos (by rw [hstat horb]; exact hf0nonneg)]
        exact Option.some.inj hf
      | some orbit =>
        simp only [isFarther]
        by_cases hzero : f0.distanceFromOrigin = 0
        · simp only [hzero, if_true]
          refine ⟨fun h => (by cases h), fun f hf => ?_⟩
          have hfe : e = f := Option.some.inj hf
          subst hfe
          refine ⟨List.mem_append.mpr (Or.inr (List.mem_singleton.mpr rfl)), ?_⟩
          intro s hs
          rcases List.mem_append.mp hs with hs | hs
          · exact le_trans ((ihsome f0 hfar).2 s hs) (by rw [hzero]; exact hentry0)
          · rw [List.mem_singleton.mp hs]
        · by_cases hgt : e.distanceFromOrigin > f0.distanceFromOrigin
          · simp only [hzero, if_false, hgt, decide_True, if_true]
            refine ⟨fun h => (by cases h), fun f hf => ?_⟩
            refine key f0 hfar f ?_
            rw [if_neg (not_le.mpr hgt)]
            exact Option.some.inj hf
          · simp only [hzero, if_false, hgt, decide_False, Bool.false_eq_true]
            refine ⟨fun h => (by cases h), fun f hf => ?_⟩
            refine key f0 hfar f ?_
            rw [if_pos (not_lt.mp hgt)]
            exact Option.some.inj hf

theorem runPass_bodies (m : JSMath α) (t : α) (bodies : List (Body α)) :
    (runPass m t bodies).bodiesWithState.map (fun s => s.body) = bodies := by
  induction bodies using List.reverseRecOn with
  | nil => rfl
  | append_singleton l b ih =>
    rw [runPass_append_singleton, passStep_bodiesWithState, List.map_append, ih]
    simp [entryFor_body]

theorem mem_states_body (m : JSMath α) (t : α) (bodies : List (Body α)) (s : BodyState α)
    (hs : s ∈ (runPass m t bodies).bodiesWithState) : s.body ∈ bodies := by
  have h : s.body ∈ (runPass m t bodies).bodiesWithState.map (fun s => s.body) :=
    List.mem_map_of_mem _ hs
  rwa [runPass_bodies] at h

theorem runPass_stationary_distance (m : JSMath α) (t : α) (bodies : List (Body α)) :
    ∀ s ∈ (runPass m t bodies).bodiesWithState, s.body.orbit = none →
      s.distanceFromOrigin = 0 := by
  induction bodies using List.reverseRecOn with
  | nil => intro s hs; cases hs
  | append_singleton l b ih =>
    rw [runPass_append_singleton, passStep_bodiesWithState]
    intro s hs horb
    rcases List.mem_append.mp hs with hs | hs
    · exact ih s hs horb
    · have hse := List.mem_singleton.mp hs
      subst hse
      rw [entryFor_body] at horb
      simp [entryFor, horb, stationaryEntry]

/-- C1: in `computeEphemerides` the entry of the `k`-th body is that body's
state; its absolute position is the origin when the body has no orbit, and
otherwise the component-wise sum of the parent position and the relative
position of `elementsToCartesian`, the parent position being the one computed
for the latest earlier body named `orbit.parent` and the origin when there is
none (then the absolute position is the relative position). -/
theorem computeEphemerides_position (m : JSMath α) (bodies : List (Body α)) (timeDays : α)
    (k : Nat) (body : Body α) (hk : bodies[k]? = some body) :
    ∃ s, (computeEphemerides m bodies timeDays).bodiesWithState[k]? = some s
      ∧ s.body = body
      ∧ (body.orbit = none → s.position = ⟨0, 0, 0⟩)
      ∧ ∀ orbit, body.orbit = some orbit →
          s.relativePosition = (elementsToCartesian m orbit timeDays).position
          ∧ s.position =
              ⟨(parentPositionBefore
                    ((computeEphemerides m bodies timeDays).bodiesWithState.take k)
                    orbit.parent).x + s.relativePosition.x,
               (parentPositionBefore
                    ((computeEphemerides m bodies timeDays).bodiesWithState.take k)
                    orbit.parent).y + s.relativePosition.y,
               (parentPositionBefore
                    ((computeEphemerides m bodies timeDays).bodiesWithState.take k)
                    orbit.parent).z + s.relativePosition.z⟩
          ∧ ((∀ s' ∈ (computeEphemerides m bodies timeDays).bodiesWithState.take k,
                some s'.body.name ≠ orbit.parent) →
              s.position = s.relativePosition) := by
  obtain ⟨htake, hget⟩ := runPass_split m timeDays bodies k body hk
  refine ⟨_, hget, entryFor_body _ _ _ _, ?_, ?_⟩
  · intro hnone
    simp [entryFor, hnone, stationaryEntry]
  · intro orbit horbit
    have hpar : (mapGet (runPass m timeDays (bodies.take k)).absolutePositions
        orbit.parent).getD ⟨0, 0, 0⟩
        = parentPositionBefore
            ((computeEphemerides m bodies timeDays).bodiesWithState.take k) orbit.parent := by
      rw [runPass_positions, mapGet_positionsOf]
      simp only [computeEphemerides]
      rw [htake]
    refine ⟨by simp [entryFor, horbit, orbitingEntry], ?_, ?_⟩
    · simp only [entryFor, horbit, orbitingEntry]
      rw [hpar]
    · intro hnew
      have horigin : parentPositionBefore
          ((computeEphemerides m bodies timeDays).bodiesWithState.take k) orbit.parent
          = ⟨0, 0, 0⟩ := by
        unfold parentPositionBefore
        cases hp : orbit.parent with
        | none => rfl
        | some name =>
          have hfind : List.find? (fun s => decide (s.body.name = name))
              ((computeEphemerides m bodies timeDays).bodiesWithState.take k).reverse
              = none := by
            rw [List.find?_eq_none]
            intro s' hs' hname
            have hmem := List.mem_reverse.mp hs'
            exact hnew s' hmem (by rw [hp]; simpa using hname)
          simp only [hfind]
      simp only [entryFor, horbit, orbitingEntry]
      rw [hpar, horigin]
      simp

/-- C4: elements whose `semiMajorAxis` is `≤ 0` make `elementsToCartesian`
return the zero position, radius vector `0`, true anomaly `0` and the period
`Infinity`, whatever the other elements and the elapsed time; the entry of
such a body in `computeEphemerides` has a `null` orbital period and a zero
relative position. -/
theorem degenerate_elements (m : JSMath α) (elements : OrbitalElements α) (a deltaDays : α)
    (ha : elements.semiMajorAxis = some a) (hle : a ≤ 0) :
    (elementsToCartesian m elements deltaDays).position = ⟨0, 0, 0⟩
      ∧ (elementsToCartesian m elements deltaDays).radiusVector = 0
      ∧ (elementsToCartesian m elements deltaDays).trueAnomaly = 0
      ∧ (elementsToCartesian m elements deltaDays).orbitalPeriod = none
      ∧ ∀ (bodies : List (Body α)) (k : Nat) (body : Body α),
          bodies[k]? = some body → body.orbit = some elements →
          ∃ s, (computeEphemerides m bodies deltaDays).bodiesWithState[k]? = some s
            ∧ s.orbitalPeriodDays = none ∧ s.relativePosition = ⟨0, 0, 0⟩ := by
  have hdeg : elementsToCartesian m elements deltaDays = degenerateEphemeris := by
    simp [elementsToCartesian, ha, hle]
  refine ⟨by rw [hdeg]; rfl, by rw [hdeg]; rfl, by rw [hdeg]; rfl, by rw [hdeg]; rfl, ?_⟩
  intro bodies k body hk horbit
  obtain ⟨_, hget⟩ := runPass_split m deltaDays bodies k body hk
  refine ⟨_, hget, ?_, ?_⟩
  · simp [entryFor, horbit, orbitingEntry, hdeg, degenerateEphemeris]
  · simp [entryFor, horbit, orbitingEntry, hdeg, degenerateEphemeris]

end Pass

theorem computeEphemerides_position_witness :
    [sun, earth][1]? = some earth
      ∧ ∃ s, (computeEphemerides realMath [sun, earth] 0).bodiesWithState[1]? = some s
          ∧ s.body = earth
          ∧ s.relativePosition = (elementsToCartesian realMath earthOrbit 0).position :=
  ⟨rfl, by
    obtain ⟨s, h1, h2, _, h4⟩ := computeEphemerides_position realMath [sun, earth] 0 1 earth rfl
    exact ⟨s, h1, h2, (h4 earthOrbit rfl).1⟩⟩

theorem degenerate_elements_witness :
    degenerateOrbit.semiMajorAxis = some (-1) ∧ (-1 : ℝ) ≤ 0
      ∧ (elementsToCartesian realMath degenerateOrbit 5).position = ⟨0, 0, 0⟩
      ∧ (elementsToCartesian realMath degenerateOrbit 5).orbitalPeriod = none
      ∧ ∃ s, (computeEphemerides realMath [sun, ghost] 5).bodiesWithState[1]? = some s
          ∧ s.orbitalPeriodDays = none ∧ s.relativePosition = ⟨0, 0, 0⟩ :=
  have h := degenerate_elements realMath degenerateOrbit (-1) 5 rfl (by norm_num)
  ⟨rfl, by norm_num, h.1, h.2.2.2.1, h.2.2.2.2 [sun, ghost] 1 ghost rfl rfl⟩

/-- C5: `summary.fastestOrbiter` is `"-"` when no entry has a defined orbital
period (in particular for the empty list); when some entry has one, it is the
name of an entry whose period is defined and is at most every defined period
of the pass.  When no body is itself named `"-"`, the summary is `"-"` exactly
when the list is empty or no entry has a defined period. -/
theorem fastestOrbiter_minimal (bodies : List (Body ℝ)) (timeDays : ℝ) :
    ((∀ s ∈ (computeEphemerides realMath bodies timeDays).bodiesWithState,
        s.orbitalPeriodDays = none) →
      (computeEphemerides realMath bodies timeDays).summary.fastestOrbiter = "-")
    ∧ ((∃ s ∈ (computeEphemerides realMath bodies timeDays).bodiesWithState,
          s.orbitalPeriodDays ≠ none) →
        ∃ s ∈ (computeEphemerides realMath bodies timeDays).bodiesWithState,
          ∃ p, s.orbitalPeriodDays = some p
            ∧ (computeEphemerides realMath bodies timeDays).summary.fastestOrbiter = s.body.name
            ∧ ∀ s' ∈ (computeEphemerides realMath bodies timeDays).bodiesWithState,
                ∀ q, s'.orbitalPeriodDays = some q → p ≤ q)
    ∧ ((∀ b ∈ bodies, b.name ≠ "-") →
        ((computeEphemerides realMath bodies timeDays).summary.fastestOrbiter = "-"
          ↔ bodies = [] ∨ ∀ s ∈ (computeEphemerides realMath bodies timeDays).bodiesWithState,
              s.orbitalPeriodDays = none)) := by
  have hPI : realMath.PI ≠ 0 := Real.pi_ne_zero
  obtain ⟨hnone, hsome⟩ := runPass_fastestOrbiter realMath hPI timeDays bodies
  simp only [computeEphemerides]
  have hA : (∀ s ∈ (runPass realMath timeDays bodies).bodiesWithState,
      s.orbitalPeriodDays = none) →
      nameOrDash (runPass realMath timeDays bodies).fastestOrbiter = "-" := by
    intro hall
    cases hf : (runPass realMath timeDays bodies).fastestOrbiter with
    | none => rfl
    | some f =>
      obtain ⟨hmem, p, hp, _⟩ := hsome f hf
      rw [hall f hmem] at hp; cases hp
  refine ⟨hA, ?_, ?_⟩
  · rintro ⟨s, hs, hdef⟩
    cases hf : (runPass realMath timeDays bodies).fastestOrbiter with
    | none => exact absurd (hnone hf s hs) hdef
    | some f =>
      obtain ⟨hmem, p, hp, hmin⟩ := hsome f hf
      exact ⟨f, hmem, p, hp, rfl, hmin⟩
  · intro hnames
    constructor
    · intro hdash
      right
      cases hf : (runPass realMath timeDays bodies).fastestOrbiter with
      | none => exact hnone hf
      | some f =>
        rw [hf] at hdash
        exact absurd hdash
          (hnames f.body (mem_states_body realMath timeDays bodies f (hsome f hf).1))
    · rintro (hnil | hall)
      · subst hnil; rfl
      · exact hA hall

/-- C6: `summary.farthestBody` is `"-"` for the empty list; for a non-empty
list it is the name of an entry whose distance from the origin is at least the
distance of every entry, an entry without orbit having distance `0`.  When no
body is itself named `"-"`, the summary is `"-"` exactly when the list is
empty. -/
theorem farthestBody_maximal (bodies : List (Body ℝ)) (timeDays : ℝ) :
    (bodies = [] → (computeEphemerides realMath bodies timeDays).summary.farthestBody = "-")
    ∧ (bodies ≠ [] →
        ∃ s ∈ (computeEphemerides realMath bodies timeDays).bodiesWithState,
          (computeEphemerides realMath bodies timeDays).summary.farthestBody = s.body.name
          ∧ ∀ s' ∈ (computeEphemerides realMath bodies timeDays).bodiesWithState,
              s'.distanceFromOrigin ≤ s.distanceFromOrigin)
    ∧ (∀ s ∈ (computeEphemerides realMath bodies timeDays).bodiesWithState,
        s.body.orbit = none → s.distanceFromOrigin = 0)
    ∧ ((∀ b ∈ bodies, b.name ≠ "-") →
        ((computeEphemerides realMath bodies timeDays).summary.farthestBody = "-"
          ↔ bodies = [])) := by
  have hsqrt : ∀ x, 0 ≤ realMath.sqrt x := Real.sqrt_nonneg
  obtain ⟨hnone, hsome⟩ := runPass_farthestBody realMath hsqrt timeDays bodies
  simp only [computeEphemerides]
  have hA : bodies = [] → nameOrDash (runPass realMath timeDays bodies).farthestBody = "-" := by
    intro hnil; subst hnil; rfl
  refine ⟨hA, ?_, ?_, ?_⟩
  · intro hne
    cases hf : (runPass realMath timeDays bodies).farthestBody with
    | none => exact absurd (hnone hf) hne
    | some f => exact ⟨f, (hsome f hf).1, rfl, (hsome f hf).2⟩
  · intro s hs horb
    exact runPass_stationary_distance realMath timeDays bodies s hs horb
  · intro hnames
    constructor
    · intro hdash
      cases hf : (runPass realMath timeDays bodies).farthestBody with
      | none => exact hnone hf
      | some f =>
        rw [hf] at hdash
        exact absurd hdash
          (hnames f.body (mem_states_body realMath timeDays bodies f (hsome f hf).1))
    · exact hA

/-! ## The simulation clock -/

section Clock

variable {α : Type} [LinearOrderedField α] [FloorRing α]

/-- C7: after a render that changes the speed or the paused flag the baseline
is cleared, and the first frame after it leaves the accumulated time
unchanged and takes its timestamp as the new baseline. -/
theorem render_change_then_frame (h : Hook α) (speed : α) (paused : Bool) (now : α)
    (hchange : speed ≠ h.speed ∨ paused ≠ h.paused) :
    (h.render speed paused).clock.lastTick = none
      ∧ (h.render speed paused).clock.time = h.clock.time
      ∧ ((h.render speed paused).frame now).clock.time = h.clock.time
      ∧ ((h.render speed paused).frame now).clock.lastTick = some now := by
  have hne : ¬ (speed = h.speed ∧ paused = h.paused) := by
    rintro ⟨h1, h2⟩
    rcases hchange with hc | hc
    · exact hc h1
    · exact hc h2
  refine ⟨?_, ?_, ?_, ?_⟩
  · simp only [Hook.render, if_neg hne]
  · simp only [Hook.render, if_neg hne]
  · simp only [Hook.render, if_neg hne, Hook.frame, update]
    cases paused <;> simp
  · simp only [Hook.render, if_neg hne, Hook.frame, update]

theorem render_change_then_frame_witness :
    ((50 : ℚ) ≠ 1 ∨ false ≠ false)
      ∧ (((⟨1, false, ⟨10, some 2000⟩⟩ : Hook ℚ).render 50 false).frame 2500).clock.time = 10 :=
  ⟨Or.inl (by norm_num),
    (render_change_then_frame (⟨1, false, ⟨10, some 2000⟩⟩ : Hook ℚ) 50 false 2500
      (Or.inl (by norm_num))).2.2.1⟩

/-- C8 as stated fails: an unpaused step whose timestamp is earlier than the
last sample decreases the accumulated time (the negative delta is not clamped). -/
theorem update_negative_delta_decreases :
    (update (1 : ℚ) false ⟨5, some 2000⟩ 1000).time = 4
      ∧ (update (1 : ℚ) false ⟨5, some 2000⟩ 1000).time < (⟨5, some 2000⟩ : ClockState ℚ).time := by
  have h : (update (1 : ℚ) false ⟨5, some 2000⟩ 1000).time = 4 := by
    simp [update]; norm_num
  exact ⟨h, by rw [h]; norm_num⟩

/-- C8 (amended): with a non-negative speed an unpaused step does not decrease
the accumulated time when the timestamp is not earlier than the last sample
(or there is no last sample yet). -/
theorem update_monotone (speed : α) (s : ClockState α) (now : α) (hspeed : 0 ≤ speed)
    (hnow : ∀ t0, s.lastTick = some t0 → t0 ≤ now) :
    s.time ≤ (update speed false s now).time := by
  cases hl : s.lastTick with
  | none => simp [update, hl]
  | some t0 =>
    by_cases hzero : t0 = 0
    · simp [update, hl, hzero]
    · have hdelta : 0 ≤ (now - t0) / 1000 :=
        div_nonneg (sub_nonneg.mpr (hnow t0 hl)) (by norm_num)
      have hprod := mul_nonneg hdelta hspeed
      simp only [update, hl, if_neg hzero, Bool.not_false, if_true]
      linarith

theorem update_monotone_witness :
    (0 : ℚ) ≤ 50 ∧ (⟨3, some 1000⟩ : ClockState ℚ).time
      ≤ (update (50 : ℚ) false ⟨3, some 1000⟩ 2000).time :=
  ⟨by norm_num, update_monotone (50 : ℚ) ⟨3, some 1000⟩ 2000 (by norm_num)
    (by intro t0 ht0; cases ht0; norm_num)⟩

/-- The test `!lastTickRef.current` also fires for a stored timestamp `0`:
from the state with last sample `0`, a step at timestamp `1000` with speed
`50` takes `1000` as its baseline and adds nothing. -/
theorem update_zero_baseline_adds_nothing :
    (update (50 : ℚ) false ⟨0, some 0⟩ 1000).time = 0
      ∧ (⟨0, some 0⟩ : ClockState ℚ).time + ((1000 - 0) / 1000) * 50 = 50 := by
  constructor
  · simp [update]
  · norm_num

/-- A frame stores its timestamp as the last sample. -/
theorem frame_lastTick (h : Hook α) (now : α) : (h.frame now).clock.lastTick = some now := rfl

/-- A render keeps the last sample or clears it. -/
theorem render_lastTick (h : Hook α) (speed : α) (paused : Bool) :
    (h.render speed paused).clock.lastTick = h.clock.lastTick
      ∨ (h.render speed paused).clock.lastTick = none := by
  unfold Hook.render
  split_ifs
  · exact Or.inl rfl
  · exact Or.inr rfl

/-- Frame timestamps are positive, so every last sample the hook ever stores
is positive: from a state whose last sample is unset or positive, any sequence
of renders and frames with positive timestamps leads to such a state. -/
theorem run_lastTick_pos (events : List (HookEvent α))
    (hframes : ∀ now, HookEvent.frame now ∈ events → 0 < now) :
    ∀ h : Hook α, (∀ t, h.clock.lastTick = some t → 0 < t) →
      ∀ t0, (h.run events).clock.lastTick = some t0 → 0 < t0 := by
  induction events with
  | nil => intro h hinv t0 ht0; exact hinv t0 ht0
  | cons ev rest ih =>
    intro h hinv t0 ht0
    have hrest : ∀ now, HookEvent.frame now ∈ rest → 0 < now :=
      fun now hmem => hframes now (List.mem_cons_of_mem _ hmem)
    refine ih hrest (h.step ev) ?_ t0 ht0
    intro t ht
    cases ev with
    | render speed paused =>
      rcases render_lastTick h speed paused with hkeep | hclear
      · exact hinv t (by rw [← hkeep]; exact ht)
      · have ht' : (h.render speed paused).clock.lastTick = some t := ht
        rw [hclear] at ht'
        cases ht'
    | frame now =>
      have ht' : (h.frame now).clock.lastTick = some t := ht
      rw [frame_lastTick] at ht'
      have hnow : 0 < now := hframes now (List.mem_cons_self _ _)
      rw [← Option.some.inj ht']
      exact hnow

/-- The mounted hook only ever holds a positive last sample. -/
theorem mounted_lastTick_pos (speed : α) (paused : Bool) (events : List (HookEvent α))
    (hframes : ∀ now, HookEvent.frame now ∈ events → 0 < now) (t0 : α)
    (ht0 : ((Hook.mount speed paused).run events).clock.lastTick = some t0) : 0 < t0 :=
  run_lastTick_pos events hframes (Hook.mount speed paused)
    (fun t ht => (by cases ht)) t0 ht0

/-- C9: from a clock state with an established last sample `t0` (the test
`!lastTickRef.current` fails, that is `t0 ≠ 0`, as for every timestamp a frame
has stored), one step at timestamp `t1` adds exactly
`((t1 - t0) / 1000) * speed` to the accumulated time when unpaused and nothing
when paused, and the baseline becomes `t1`. -/
theorem update_from_baseline (speed : α) (paused : Bool) (time t0 t1 : α) (ht0 : t0 ≠ 0) :
    (update speed paused ⟨time, some t0⟩ t1).time
        = (if paused then time else time + ((t1 - t0) / 1000) * speed)
      ∧ (update speed paused ⟨time, some t0⟩ t1).lastTick = some t1 := by
  cases paused <;> simp [update, ht0]

theorem update_from_baseline_witness :
    (16 : ℚ) ≠ 0
      ∧ (update (50 : ℚ) false ⟨7, some 16⟩ 1016).time = 7 + ((1016 - 16) / 1000) * 50
      ∧ (7 : ℚ) + ((1016 - 16) / 1000) * 50 = 7 + 50
      ∧ (update (50 : ℚ) false ⟨7, some 16⟩ 1016).lastTick = some 1016 :=
  have h := update_from_baseline (50 : ℚ) false 7 16 1016 (by norm_num)
  ⟨by norm_num, h.1, by norm_num, h.2⟩

end Clock

/-! ## The orbital period -/

theorem rpow_three_halves (a : ℝ) (ha : 0 ≤ a) : a ^ (1.5 : ℝ) = Real.sqrt (a ^ 3) := by
  rw [Real.sqrt_eq_rpow, ← Real.rpow_natCast, ← Real.rpow_mul ha]
  norm_num

theorem meanMotion_eq (a : ℝ) (ha : 0 < a) :
    Real.sqrt (GAUSSIAN_GM / a ^ 3) = 0.01720209895 / a ^ (1.5 : ℝ) := by
  rw [rpow_three_halves a ha.le, GAUSSIAN_GM, Real.sqrt_div (sq_nonneg _),
    Real.sqrt_sq (by norm_num)]

theorem periodOf_real (a : ℝ) (ha : 0 < a) :
    periodOf realMath (realMath.sqrt (GAUSSIAN_GM / a ^ 3))
      = some (2 * Real.pi * a ^ (1.5 : ℝ) / 0.01720209895) := by
  have hpow : 0 < a ^ (1.5 : ℝ) := Real.rpow_pos_of_pos ha _
  have hmm : realMath.sqrt (GAUSSIAN_GM / a ^ 3) = 0.01720209895 / a ^ (1.5 : ℝ) :=
    meanMotion_eq a ha
  have hne : (0.01720209895 : ℝ) / a ^ (1.5 : ℝ) ≠ 0 :=
    div_ne_zero (by norm_num) hpow.ne'
  rw [hmm, periodOf, if_neg hne]
  congr 1
  show Real.pi * 2 / (0.01720209895 / a ^ (1.5 : ℝ))
    = 2 * Real.pi * a ^ (1.5 : ℝ) / 0.01720209895
  rw [div_div_eq_mul_div]
  ring

theorem elementsToCartesian_period (elements : OrbitalElements ℝ) (a deltaDays : ℝ)
    (ha : elements.semiMajorAxis = some a) (hpos : 0 < a) :
    (elementsToCartesian realMath elements deltaDays).orbitalPeriod
      = some (2 * Real.pi * a ^ (1.5 : ℝ) / 0.01720209895) := by
  have hnd : ¬ (a = 0 ∨ a ≤ 0) := by
    rintro (h | h)
    · exact hpos.ne' h
    · exact absurd hpos (not_lt.mpr h)
  simp only [elementsToCartesian, ha, if_neg hnd, elementsToCartesianAt]
  exact periodOf_real a hpos

/-- C10: for a positive `semiMajorAxis` `a` the orbital period returned by
`elementsToCartesian` is `2π · a^1.5 / 0.01720209895`; it is the same for all
elements with that `semiMajorAxis` and all elapsed times, and with
`semiMajorAxis` `2a` it is `2^1.5` times the period for `a`. -/
theorem period_scaling (elements : OrbitalElements ℝ) (a deltaDays : ℝ)
    (ha : elements.semiMajorAxis = some a) (hpos : 0 < a) :
    (elementsToCartesian realMath elements deltaDays).orbitalPeriod
        = some (2 * Real.pi * a ^ (1.5 : ℝ) / 0.01720209895)
      ∧ (elementsToCartesian realMath { elements with semiMajorAxis := some (2 * a) }
            deltaDays).orbitalPeriod
          = some ((2 : ℝ) ^ (1.5 : ℝ) * (2 * Real.pi * a ^ (1.5 : ℝ) / 0.01720209895))
      ∧ ∀ (other : OrbitalElements ℝ) (otherDays : ℝ), other.semiMajorAxis = some a →
          (elementsToCartesian realMath other otherDays).orbitalPeriod
            = (elementsToCartesian realMath elements deltaDays).orbitalPeriod := by
  refine ⟨elementsToCartesian_period elements a deltaDays ha hpos, ?_, ?_⟩
  · rw [elementsToCartesian_period { elements with semiMajorAxis := some (2 * a) } (2 * a)
      deltaDays rfl (by linarith)]
    congr 1
    rw [Real.mul_rpow (by norm_num) hpos.le]
    ring
  · intro other otherDays hother
    rw [elementsToCartesian_period other a otherDays hother hpos,
      elementsToCartesian_period elements a deltaDays ha hpos]

theorem period_scaling_witness :
    earthOrbit.semiMajorAxis = some 1 ∧ (0 : ℝ) < 1
      ∧ (elementsToCartesian realMath earthOrbit 0).orbitalPeriod
          = some (2 * Real.pi * (1 : ℝ) ^ (1.5 : ℝ) / 0.01720209895) :=
  ⟨rfl, one_pos, (period_scaling earthOrbit 1 0 rfl one_pos).1⟩

/-- C5 as stated fails: for the single body named `"-"` on a one-unit circular
orbit the summary is `"-"` although the list is not empty and its entry has a
defined orbital period. -/
theorem fastestOrbiter_dash_named_body :
    (computeEphemerides realMath [dashPlanet] 0).summary.fastestOrbiter = "-"
      ∧ [dashPlanet] ≠ []
      ∧ ∃ s ∈ (computeEphemerides realMath [dashPlanet] 0).bodiesWithState,
          s.orbitalPeriodDays ≠ none := by
  have hper : (elementsToCartesian realMath earthOrbit 0).orbitalPeriod
      = some (2 * Real.pi * (1 : ℝ) ^ (1.5 : ℝ) / 0.01720209895) :=
    elementsToCartesian_period earthOrbit 1 0 rfl one_pos
  have hstates : (runPass realMath 0 [dashPlanet]).bodiesWithState
      = [orbitingEntry realMath 0 [] dashPlanet earthOrbit] := rfl
  have hentry : (orbitingEntry realMath 0 [] dashPlanet earthOrbit).orbitalPeriodDays
      = some (2 * Real.pi * (1 : ℝ) ^ (1.5 : ℝ) / 0.01720209895) := hper
  obtain ⟨hnone, hsome⟩ := runPass_fastestOrbiter realMath Real.pi_ne_zero 0 [dashPlanet]
  refine ⟨?_, by simp, ?_⟩
  · simp only [computeEphemerides]
    cases hf : (runPass realMath 0 [dashPlanet]).fastestOrbiter with
    | none =>
      have := hnone hf (orbitingEntry realMath 0 [] dashPlanet earthOrbit)
        (by rw [hstates]; exact List.mem_singleton.mpr rfl)
      rw [hentry] at this
      cases this
    | some f =>
      have hmem := (hsome f hf).1
      rw [hstates] at hmem
      rw [List.mem_singleton.mp hmem]
      rfl
  · refine ⟨orbitingEntry realMath 0 [] dashPlanet earthOrbit, ?_, ?_⟩
    · simp only [computeEphemerides]
      rw [hstates]
      exact List.mem_singleton.mpr rfl
    · rw [hentry]
      exact Option.some_ne_none _

/-- C6 as stated fails: for the single body named `"-"` without orbit the
summary is `"-"` although the list is not empty. -/
theorem farthestBody_dash_named_body :
    (computeEphemerides realMath [dashStar] 0).summary.farthestBody = "-"
      ∧ [dashStar] ≠ [] :=
  ⟨rfl, by simp⟩

/-! ## The Kepler solver -/

section Solver

open Real

/-- `x cos x < sin x` on `(0, π]`. -/
theorem mul_cos_lt_sin (x : ℝ) (h0 : 0 < x) (hpi : x ≤ Real.pi) : x * Real.cos x < Real.sin x := by
  rcases lt_or_le x (Real.pi / 2) with h | h
  · have hcos : 0 < Real.cos x := Real.cos_pos_of_mem_Ioo ⟨by linarith, h⟩
    have htan := Real.lt_tan h0 h
    rw [Real.tan_eq_sin_div_cos, lt_div_iff₀ hcos] at htan
    exact htan
  · have hsin : 0 ≤ Real.sin x := Real.sin_nonneg_of_nonneg_of_le_pi h0.le hpi
    rcases eq_or_lt_of_le h with heq | hlt
    · rw [← heq, Real.cos_pi_div_two, Real.sin_pi_div_two]; norm_num
    · have hcos : Real.cos x < 0 :=
        Real.cos_neg_of_pi_div_two_lt_of_lt hlt (by linarith [Real.pi_pos])
      have : x * Real.cos x < 0 := mul_neg_of_pos_of_neg h0 hcos
      linarith

/-- The loop for mean anomaly `2π - M` started at `2π - E` mirrors the loop for
`M` started at `E`. -/
theorem keplerLoop_mirror (M e : ℝ) (fuel : Nat) :
    ∀ E : ℝ, keplerLoop realMath (2 * π - M) e fuel (2 * π - E)
      = 2 * π - keplerLoop realMath M e fuel E := by
  induction fuel with
  | zero => intro E; rfl
  | succ k ih =>
    intro E
    have hf : (2 * π - E - e * sin (2 * π - E) - (2 * π - M))
          / (1 - e * cos (2 * π - E))
        = -((E - e * sin E - M) / (1 - e * cos E)) := by
      rw [sin_two_pi_sub, cos_two_pi_sub, ← neg_div]
      congr 1
      ring
    rw [keplerLoop, keplerLoop]
    simp only [realMath]
    rw [hf, abs_neg]
    split_ifs
    · ring
    · have hnext : 2 * π - E - -((E - e * sin E - M) / (1 - e * cos E))
          = 2 * π - (E - (E - e * sin E - M) / (1 - e * cos E)) := by ring
      rw [hnext]
      exact ih _

/-- A function with a non-negative derivative on `[a, b]` does not decrease
from `a` to `b`. -/
theorem le_of_deriv_nonneg (f g : ℝ → ℝ) {a b : ℝ} (hab : a ≤ b)
    (hd : ∀ x, HasDerivAt f (g x) x) (hpos : ∀ x, a ≤ x → x ≤ b → 0 ≤ g x) : f a ≤ f b := by
  have hmono : MonotoneOn f (Set.Icc a b) := by
    apply monotoneOn_of_deriv_nonneg (convex_Icc a b)
    · exact fun x _ => (hd x).continuousAt.continuousWithinAt
    · exact fun x _ => (hd x).differentiableAt.differentiableWithinAt
    · intro x hx
      rw [interior_Icc] at hx
      rw [(hd x).deriv]
      exact hpos x hx.1.le hx.2.le
  exact hmono (Set.left_mem_Icc.mpr hab) (Set.right_mem_Icc.mpr hab) hab

theorem sin_sub_sin_le (a b : ℝ) (hab : a ≤ b) : sin b - sin a ≤ b - a := by
  have h := le_of_deriv_nonneg (fun t => t - sin t)
    (fun t => 1 - cos t) hab
    (fun x => (hasDerivAt_id x).sub (hasDerivAt_sin x))
    (fun x _ _ => by beta_reduce; have := cos_le_one x; linarith)
  beta_reduce at h
  linarith

theorem sin_sub_sin_ge (a b : ℝ) (hab : a ≤ b) : -(b - a) ≤ sin b - sin a := by
  have h := le_of_deriv_nonneg (fun t => t + sin t)
    (fun t => 1 + cos t) hab
    (fun x => (hasDerivAt_id x).add (hasDerivAt_sin x))
    (fun x _ _ => by beta_reduce; have := neg_one_le_cos x; linarith)
  beta_reduce at h
  linarith

theorem cos_sub_cos_le (a b : ℝ) (hab : a ≤ b) : cos a - cos b ≤ b - a := by
  have h := le_of_deriv_nonneg (fun t => t + cos t)
    (fun t => 1 + -sin t) hab
    (fun x => (hasDerivAt_id x).add (hasDerivAt_cos x))
    (fun x _ _ => by beta_reduce; have := sin_le_one x; linarith)
  beta_reduce at h
  linarith

/-- Tangent at the right end: `(b - a) cos b ≤ sin b - sin a` on `[0, π]`. -/
theorem tangent_right (a b : ℝ) (ha : 0 ≤ a) (hab : a ≤ b) (hb : b ≤ π) :
    (b - a) * cos b ≤ sin b - sin a := by
  have h := le_of_deriv_nonneg (fun t => sin t + (b - t) * cos b)
    (fun t => cos t + (0 - 1) * cos b) hab
    (fun x => (hasDerivAt_sin x).add
      (((hasDerivAt_const x b).sub (hasDerivAt_id x)).mul_const (cos b)))
    (fun x hx1 hx2 => by
      beta_reduce
      have := cos_le_cos_of_nonneg_of_le_pi (le_trans ha hx1) hb hx2
      linarith)
  beta_reduce at h
  linarith

/-- Tangent at the left end: `sin b - sin a ≤ (b - a) cos a` on `[0, π]`. -/
theorem tangent_left (a b : ℝ) (ha : 0 ≤ a) (hab : a ≤ b) (hb : b ≤ π) :
    sin b - sin a ≤ (b - a) * cos a := by
  have h := le_of_deriv_nonneg (fun t => (t - a) * cos a - sin t)
    (fun t => (1 - 0) * cos a - cos t) hab
    (fun x => (((hasDerivAt_id x).sub (hasDerivAt_const x a)).mul_const (cos a)).sub
      (hasDerivAt_sin x))
    (fun x hx1 hx2 => by
      beta_reduce
      have := cos_le_cos_of_nonneg_of_le_pi ha (le_trans hx2 hb) hx1
      linarith)
  beta_reduce at h
  linarith

/-- Second-order bound: `sin b - sin a - (b - a) cos b ≤ (b - a)² / 2`. -/
theorem remainder_le (a b : ℝ) (hab : a ≤ b) :
    sin b - sin a - (b - a) * cos b ≤ (b - a) ^ 2 / 2 := by
  have h := le_of_deriv_nonneg
    (fun t => sin b - sin t - (b - t) * cos b - (b - t) ^ 2 / 2)
    (fun t => 0 - cos t - (0 - 1) * cos b - (2 * (b - t) ^ (2 - 1) * (0 - 1)) / 2) hab
    (fun x => (((hasDerivAt_const x (sin b)).sub (hasDerivAt_sin x)).sub
        (((hasDerivAt_const x b).sub (hasDerivAt_id x)).mul_const (cos b))).sub
      ((((hasDerivAt_const x b).sub (hasDerivAt_id x)).pow 2).div_const 2))
    (fun x _ hx2 => by
      beta_reduce
      have := cos_sub_cos_le x b hx2
      simp only [Nat.add_one_sub_one, pow_one]
      linarith)
  beta_reduce at h
  nlinarith

/-- Second-order bound with the factor `sin b`, below a right angle. -/
theorem remainder_le_sin (a b : ℝ) (ha : 0 ≤ a) (hab : a ≤ b) (hb : b ≤ π / 2) :
    sin b - sin a - (b - a) * cos b ≤ sin b * (b - a) ^ 2 / 2 := by
  have hcos : ∀ t, 0 ≤ t → t ≤ b → cos t - cos b ≤ sin b * (b - t) := by
    intro t ht0 htb
    have h := le_of_deriv_nonneg (fun s => cos s - sin b * (b - s))
      (fun s => -sin s - sin b * (0 - 1)) htb
      (fun x => (hasDerivAt_cos x).sub
        (((hasDerivAt_const x b).sub (hasDerivAt_id x)).const_mul (sin b)))
      (fun x hx1 hx2 => by
        beta_reduce
        have := sin_le_sin_of_le_of_le_pi_div_two (by linarith [pi_pos]) hb hx2
        linarith)
    beta_reduce at h
    linarith
  have h := le_of_deriv_nonneg
    (fun t => sin b - sin t - (b - t) * cos b - sin b * (b - t) ^ 2 / 2)
    (fun t => 0 - cos t - (0 - 1) * cos b
      - (sin b * (2 * (b - t) ^ (2 - 1) * (0 - 1))) / 2) hab
    (fun x => (((hasDerivAt_const x (sin b)).sub (hasDerivAt_sin x)).sub
        (((hasDerivAt_const x b).sub (hasDerivAt_id x)).mul_const (cos b))).sub
      (((((hasDerivAt_const x b).sub (hasDerivAt_id x)).pow 2).const_mul (sin b)).div_const 2))
    (fun x hx1 hx2 => by
      beta_reduce
      have := hcos x (le_trans ha hx1) hx2
      simp only [Nat.add_one_sub_one, pow_one]
      linarith)
  beta_reduce at h
  nlinarith

theorem two_sub_two_cos_ge (t : ℝ) (ht0 : 0 ≤ t) (htpi : t ≤ π) :
    t * sin t ≤ 2 - 2 * cos t := by
  have h := le_of_deriv_nonneg (fun s => 2 - 2 * cos s - s * sin s)
    (fun s => 0 - 2 * -sin s - (1 * sin s + s * cos s)) ht0
    (fun x => ((hasDerivAt_const x (2 : ℝ)).sub ((hasDerivAt_cos x).const_mul 2)).sub
      ((hasDerivAt_id x).mul (hasDerivAt_sin x)))
    (fun x hx1 hx2 => by
      beta_reduce
      rcases eq_or_lt_of_le hx1 with h0 | h0
      · rw [← h0]; simp
      · have := mul_cos_lt_sin x h0 (le_trans hx2 htpi)
        linarith)
  simp only [cos_zero, sin_zero] at h
  linarith

/-- The chord of the sine is below the mean `(2 + cos b) / 3` of the slopes. -/
theorem chord_le (a b : ℝ) (ha : 0 ≤ a) (hab : a ≤ b) (hb : b ≤ π) :
    3 * (sin b - sin a) ≤ (b - a) * (2 + cos b) := by
  have h := le_of_deriv_nonneg (fun t => (t - a) * (2 + cos t) - 3 * sin t)
    (fun t => ((1 - 0) * (2 + cos t) + (t - a) * (0 + -sin t)) - 3 * cos t) hab
    (fun x => ((((hasDerivAt_id x).sub (hasDerivAt_const x a)).mul
        ((hasDerivAt_const x (2 : ℝ)).add (hasDerivAt_cos x)))).sub
      ((hasDerivAt_sin x).const_mul 3))
    (fun x hx1 hx2 => by
      beta_reduce
      have hx0 : 0 ≤ x := le_trans ha hx1
      have hxpi : x ≤ π := le_trans hx2 hb
      have h1 := two_sub_two_cos_ge x hx0 hxpi
      have hs : 0 ≤ sin x := sin_nonneg_of_nonneg_of_le_pi hx0 hxpi
      nlinarith)
  beta_reduce at h
  linarith

theorem keplerLoop_succ (M e E : ℝ) (fuel : Nat) :
    keplerLoop realMath M e (fuel + 1) E
      = if |(E - e * sin E - M) / (1 - e * cos E)| < (1e-8 : ℝ)
        then E - (E - e * sin E - M) / (1 - e * cos E)
        else keplerLoop realMath M e fuel (E - (E - e * sin E - M) / (1 - e * cos E)) := rfl

/-- `e sin E ≤ 3.06 (1 - e cos E)` for `0 ≤ e ≤ 0.95`. -/
theorem slope_ratio_le (e s c : ℝ) (he0 : 0 ≤ e) (he : e ≤ 0.95) (hsc : s ^ 2 + c ^ 2 = 1)
    (hc : c ≤ 1) : e * s ≤ 3.06 * (1 - e * c) := by
  have hD : 0 ≤ 1 - e * c := by nlinarith
  have he2 : e ^ 2 ≤ 0.9025 := by nlinarith
  have hquad : 0 ≤ (3.06 * (1 - e * c)) ^ 2 - (e * s) ^ 2 := by
    have hs2 : s ^ 2 = 1 - c ^ 2 := by linarith
    have hid : (3.06 ^ 2 + 1) * ((3.06 * (1 - e * c)) ^ 2 - (e * s) ^ 2)
        = (e * (3.06 ^ 2 + 1) * c - 3.06 ^ 2) ^ 2 + (3.06 ^ 2 - e ^ 2 * (3.06 ^ 2 + 1)) := by
      rw [mul_pow e s, hs2]; ring
    have hpos : 0 ≤ (3.06 ^ 2 + 1) * ((3.06 * (1 - e * c)) ^ 2 - (e * s) ^ 2) := by
      rw [hid]
      have := sq_nonneg (e * (3.06 ^ 2 + 1) * c - 3.06 ^ 2)
      nlinarith
    have hk : (0 : ℝ) < 3.06 ^ 2 + 1 := by norm_num
    exact nonneg_of_mul_nonneg_right hpos hk
  by_contra hcon
  push_neg at hcon
  have h3 : 0 ≤ 3.06 * (1 - e * c) := by positivity
  nlinarith

/-- One Newton step from `E` in `[a, π]`, where `a ≥ 0` is a root of Kepler's
equation: the distance to the root stays non-negative, shrinks to at most two
thirds and to at most `1.53` times its square. -/
theorem newton_step_bounds (M e a E : ℝ) (he0 : 0 ≤ e) (he : e ≤ 0.95) (ha0 : 0 ≤ a)
    (hroot : a - e * sin a - M = 0) (haE : a ≤ E) (hE : E ≤ π) :
    0 ≤ E - (E - e * sin E - M) / (1 - e * cos E) - a
      ∧ E - (E - e * sin E - M) / (1 - e * cos E) - a ≤ 2 / 3 * (E - a)
      ∧ E - (E - e * sin E - M) / (1 - e * cos E) - a ≤ 1.53 * (E - a) ^ 2 := by
  have hcos1 : cos E ≤ 1 := cos_le_one E
  have hD : 0 < 1 - e * cos E := by nlinarith
  have hx : 0 ≤ E - a := sub_nonneg.mpr haE
  have hP0 := tangent_right a E ha0 haE hE
  have hchord := chord_le a E ha0 haE hE
  have hP1 := remainder_le a E haE
  have hM : M = a - e * sin a := by linarith
  have hform : E - (E - e * sin E - M) / (1 - e * cos E) - a
      = e * (sin E - sin a - (E - a) * cos E) / (1 - e * cos E) := by
    rw [hM]; field_simp; ring
  rw [hform]
  have hP : 0 ≤ sin E - sin a - (E - a) * cos E := by linarith
  refine ⟨div_nonneg (mul_nonneg he0 hP) hD.le, ?_, ?_⟩
  · rw [div_le_iff₀ hD]
    have h1 : e * (sin E - sin a - (E - a) * cos E) ≤ e * (2 / 3 * (E - a) * (1 - cos E)) :=
      mul_le_mul_of_nonneg_left (by linarith) he0
    have h2 : 0 ≤ (E - a) * (1 - e) := mul_nonneg hx (by linarith)
    nlinarith
  · rw [div_le_iff₀ hD]
    rcases le_or_lt E (π / 2) with hhalf | hhalf
    · have hP2 := remainder_le_sin a E ha0 haE hhalf
      have hratio := slope_ratio_le e (sin E) (cos E) he0 he (sin_sq_add_cos_sq E) hcos1
      have hx2 : 0 ≤ (E - a) ^ 2 := sq_nonneg _
      have h1 : e * (sin E - sin a - (E - a) * cos E) ≤ e * (sin E * (E - a) ^ 2 / 2) :=
        mul_le_mul_of_nonneg_left hP2 he0
      have h2 : e * sin E * (E - a) ^ 2 ≤ 3.06 * (1 - e * cos E) * (E - a) ^ 2 :=
        mul_le_mul_of_nonneg_right hratio hx2
      nlinarith
    · have hcneg : cos E ≤ 0 :=
        cos_nonpos_of_pi_div_two_le_of_le hhalf.le (by linarith [pi_pos])
      have hD1 : 1 ≤ 1 - e * cos E := by nlinarith
      have hx2 : 0 ≤ (E - a) ^ 2 := sq_nonneg _
      have h1 : e * (sin E - sin a - (E - a) * cos E) ≤ 0.95 * ((E - a) ^ 2 / 2) :=
        mul_le_mul he hP1 hP (by norm_num)
      have h2 : 1.53 * (E - a) ^ 2 * 1 ≤ 1.53 * (E - a) ^ 2 * (1 - e * cos E) :=
        mul_le_mul_of_nonneg_left hD1 (by positivity)
      nlinarith

/-- One more iteration turns convergence from the bound `B'` into convergence
from a bound `B` with `2/3 B ≤ B'` or `1.53 B² ≤ B'`. -/
theorem convergesWithin_succ (M e a : ℝ) (he0 : 0 ≤ e) (he : e ≤ 0.95) (ha0 : 0 ≤ a)
    (hroot : a - e * sin a - M = 0) (B B' : ℝ) (fuel : Nat)
    (hB : 2 / 3 * B ≤ B' ∨ 1.53 * B ^ 2 ≤ B')
    (ih : ConvergesWithin M e a fuel B') : ConvergesWithin M e a (fuel + 1) B := by
  intro E haE hE hEB
  obtain ⟨h1, h2, h3⟩ := newton_step_bounds M e a E he0 he ha0 hroot haE hE
  have hx : 0 ≤ E - a := sub_nonneg.mpr haE
  rw [keplerLoop_succ]
  split_ifs with hbreak
  · refine ⟨by linarith, by linarith, ?_⟩
    have hδ := (abs_lt.mp hbreak).2
    linarith
  · apply ih
    · linarith
    · linarith
    · rcases hB with hB | hB
      · linarith
      · have : (E - a) ^ 2 ≤ B ^ 2 := pow_le_pow_left₀ hx hEB 2
        linarith

theorem convergesWithin_small (M e a : ℝ) (he0 : 0 ≤ e) (he : e ≤ 0.95) (ha0 : 0 ≤ a)
    (hroot : a - e * sin a - M = 0) (fuel : Nat) : ConvergesWithin M e a fuel 5e-7 := by
  induction fuel with
  | zero =>
    intro E haE hE hEB
    exact ⟨haE, hE, hEB⟩
  | succ k ih =>
    exact convergesWithin_succ M e a he0 he ha0 hroot 5e-7 5e-7 k (Or.inl (by norm_num)) ih

/-- Ten iterations or more bring any start in `[a, π]` within `5e-7` of the
root. -/
theorem convergesWithin_ten (M e a : ℝ) (he0 : 0 ≤ e) (he : e ≤ 0.95) (ha0 : 0 ≤ a)
    (hroot : a - e * sin a - M = 0) (fuel : Nat) : ConvergesWithin M e a (fuel + 10) 3.15 := by
  have step := convergesWithin_succ M e a he0 he ha0 hroot
  have c0 := convergesWithin_small M e a he0 he ha0 hroot fuel
  have c1 := step 0.00057 5e-7 fuel (Or.inr (by norm_num)) c0
  have c2 := step 0.0192 0.00057 (fuel + 1) (Or.inr (by norm_num)) c1
  have c3 := step 0.112 0.0192 (fuel + 2) (Or.inr (by norm_num)) c2
  have c4 := step 0.27 0.112 (fuel + 3) (Or.inr (by norm_num)) c3
  have c5 := step 0.42 0.27 (fuel + 4) (Or.inr (by norm_num)) c4
  have c6 := step 0.63 0.42 (fuel + 5) (Or.inl (by norm_num)) c5
  have c7 := step 0.94 0.63 (fuel + 6) (Or.inl (by norm_num)) c6
  have c8 := step 1.4 0.94 (fuel + 7) (Or.inl (by norm_num)) c7
  have c9 := step 2.1 1.4 (fuel + 8) (Or.inl (by norm_num)) c8
  exact step 3.15 2.1 (fuel + 9) (Or.inl (by norm_num)) c9

/-- Within `5e-7` above a root the residual of Kepler's equation is at most
`1e-6`. -/
theorem residual_near_root (M e a E : ℝ) (he0 : 0 ≤ e) (he : e ≤ 0.95)
    (hroot : a - e * sin a - M = 0) (haE : a ≤ E) (hclose : E - a ≤ 5e-7) :
    |E - e * sin E - M| ≤ 1e-6 := by
  have h1 := sin_sub_sin_le a E haE
  have h2 := sin_sub_sin_ge a E haE
  have hx : 0 ≤ E - a := sub_nonneg.mpr haE
  have hup : e * (sin E - sin a) ≤ 0.95 * (E - a) := by
    have : e * (sin E - sin a) ≤ e * (E - a) := mul_le_mul_of_nonneg_left h1 he0
    nlinarith
  have hlo : -(0.95 * (E - a)) ≤ e * (sin E - sin a) := by
    have : e * (-(E - a)) ≤ e * (sin E - sin a) := mul_le_mul_of_nonneg_left h2 he0
    nlinarith
  rw [abs_le]
  constructor <;> linarith

/-- Kepler's equation has a root between two points where the residual
changes sign. -/
theorem exists_root (M e lo hi : ℝ) (hle : lo ≤ hi) (hlo : lo - e * sin lo - M ≤ 0)
    (hhi : 0 ≤ hi - e * sin hi - M) :
    ∃ a, lo ≤ a ∧ a ≤ hi ∧ a - e * sin a - M = 0 := by
  have hcont : ContinuousOn (fun E : ℝ => E - e * sin E - M) (Set.Icc lo hi) := by
    apply Continuous.continuousOn
    continuity
  obtain ⟨a, ha, hval⟩ := intermediate_value_Icc hle hcont ⟨hlo, hhi⟩
  exact ⟨a, ha.1, ha.2, hval⟩

/-- The start `π` used above eccentricity `0.8`, for a mean anomaly in `[0, π]`. -/
theorem residual_from_pi (M e : ℝ) (he0 : 0 ≤ e) (he : e ≤ 0.95) (hM0 : 0 ≤ M) (hM : M ≤ π) :
    |keplerLoop realMath M e 12 π - e * sin (keplerLoop realMath M e 12 π) - M| ≤ 1e-6 := by
  have hsinM : 0 ≤ sin M := sin_nonneg_of_nonneg_of_le_pi hM0 hM
  obtain ⟨a, haM, hapi, hroot⟩ := exists_root M e M π hM
    (by nlinarith) (by rw [sin_pi]; linarith)
  have ha0 : 0 ≤ a := le_trans hM0 haM
  obtain ⟨h1, _, h3⟩ := convergesWithin_ten M e a he0 he ha0 hroot 2 π hapi le_rfl
    (by linarith [pi_lt_d2])
  exact residual_near_root M e a _ he0 he hroot h1 h3

/-- The first Newton step from the start `M` used up to eccentricity `0.8`
stays in `[M, π]` and lands on or above the root. -/
theorem first_step_from_M (M e : ℝ) (he0 : 0 ≤ e) (he : e ≤ 0.8) (hM0 : 0 ≤ M) (hM : M ≤ π) :
    M ≤ M - (M - e * sin M - M) / (1 - e * cos M)
      ∧ M - (M - e * sin M - M) / (1 - e * cos M) ≤ π
      ∧ 0 ≤ (M - (M - e * sin M - M) / (1 - e * cos M))
          - e * sin (M - (M - e * sin M - M) / (1 - e * cos M)) - M := by
  have hcos1 : cos M ≤ 1 := cos_le_one M
  have hD : 0 < 1 - e * cos M := by nlinarith
  have hsinM : 0 ≤ sin M := sin_nonneg_of_nonneg_of_le_pi hM0 hM
  have hform : M - (M - e * sin M - M) / (1 - e * cos M) = M + e * sin M / (1 - e * cos M) := by
    field_simp
  rw [hform]
  have hstep0 : 0 ≤ e * sin M / (1 - e * cos M) := div_nonneg (mul_nonneg he0 hsinM) hD.le
  have hpi : M + e * sin M / (1 - e * cos M) ≤ π := by
    rcases le_or_lt M (π / 2) with hhalf | hhalf
    · have hratio : e * sin M ≤ 4 / 3 * (1 - e * cos M) := by
        have hDn : 0 ≤ 1 - e * cos M := hD.le
        have he2 : e ^ 2 ≤ 0.64 := by nlinarith
        have hs2 : sin M ^ 2 = 1 - cos M ^ 2 := by linarith [sin_sq_add_cos_sq M]
        have hquad : 0 ≤ (4 / 3 * (1 - e * cos M)) ^ 2 - (e * sin M) ^ 2 := by
          have hid : (25 / 9) * ((4 / 3 * (1 - e * cos M)) ^ 2 - (e * sin M) ^ 2)
              = (e * (25 / 9) * cos M - 16 / 9) ^ 2 + (16 / 9 - e ^ 2 * (25 / 9)) := by
            rw [mul_pow e (sin M), hs2]; ring
          have hpos : 0 ≤ (25 / 9) * ((4 / 3 * (1 - e * cos M)) ^ 2 - (e * sin M) ^ 2) := by
            rw [hid]
            have := sq_nonneg (e * (25 / 9) * cos M - 16 / 9)
            nlinarith
          exact nonneg_of_mul_nonneg_right hpos (by norm_num)
        by_contra hcon
        push_neg at hcon
        have h3 : 0 ≤ 4 / 3 * (1 - e * cos M) := by positivity
        nlinarith
      have hdiv : e * sin M / (1 - e * cos M) ≤ 4 / 3 := by
        rw [div_le_iff₀ hD]; exact hratio
      linarith [pi_gt_three]
    · have hcneg : cos M ≤ 0 := cos_nonpos_of_pi_div_two_le_of_le hhalf.le (by linarith)
      have hD1 : 1 ≤ 1 - e * cos M := by nlinarith
      have hdiv : e * sin M / (1 - e * cos M) ≤ sin M := by
        rw [div_le_iff₀ hD]
        nlinarith
      have hsin : sin M ≤ π - M := by
        rw [← sin_pi_sub]
        exact sin_le (by linarith)
      linarith
  refine ⟨by linarith, hpi, ?_⟩
  have htan := tangent_left M (M + e * sin M / (1 - e * cos M)) hM0 (by linarith) hpi
  have hmul : e * sin M / (1 - e * cos M) * (1 - e * cos M) = e * sin M :=
    div_mul_cancel₀ _ hD.ne'
  have hsimp : M + e * sin M / (1 - e * cos M) - M = e * sin M / (1 - e * cos M) := by ring
  rw [hsimp] at htan
  have h4 : e * (sin (M + e * sin M / (1 - e * cos M)) - sin M)
      ≤ e * (e * sin M / (1 - e * cos M) * cos M) := mul_le_mul_of_nonneg_left htan he0
  nlinarith

/-- The start `M` used up to eccentricity `0.8`, for a mean anomaly in `[0, π]`. -/
theorem residual_from_M (M e : ℝ) (he0 : 0 ≤ e) (he : e ≤ 0.8) (hM0 : 0 ≤ M) (hM : M ≤ π) :
    |keplerLoop realMath M e 12 M - e * sin (keplerLoop realMath M e 12 M) - M| ≤ 1e-6 := by
  have he95 : e ≤ 0.95 := by linarith
  have hsinM : 0 ≤ sin M := sin_nonneg_of_nonneg_of_le_pi hM0 hM
  obtain ⟨hge, hpi, hres⟩ := first_step_from_M M e he0 he hM0 hM
  obtain ⟨a, haM, haE, hroot⟩ := exists_root M e M _ hge (by nlinarith) hres
  have ha0 : 0 ≤ a := le_trans hM0 haM
  rw [keplerLoop_succ]
  split_ifs with hbreak
  · refine residual_near_root M e a _ he0 he95 hroot haE ?_
    have hδ := (abs_lt.mp hbreak).1
    linarith
  · obtain ⟨h1, _, h3⟩ := convergesWithin_ten M e a he0 he95 ha0 hroot 1 _ haE hpi
      (by linarith [pi_lt_d2])
    exact residual_near_root M e a _ he0 he95 hroot h1 h3

theorem solveKepler_residual_half (M e : ℝ) (he0 : 0 ≤ e) (he : e ≤ 0.95) (hM0 : 0 ≤ M)
    (hM : M ≤ π) :
    |solveKepler realMath M e - e * sin (solveKepler realMath M e) - M| ≤ 1e-6 := by
  rw [solveKepler]
  split_ifs with hstart
  · exact residual_from_pi M e he0 he hM0 hM
  · exact residual_from_M M e he0 (not_lt.mp hstart) hM0 hM

theorem solveKepler_mirror (M e : ℝ) :
    solveKepler realMath (2 * π - M) e = 2 * π - solveKepler realMath M e := by
  simp only [solveKepler]
  split_ifs with hstart
  · have h := keplerLoop_mirror M e 12 π
    have h2 : 2 * π - π = π := by ring
    rw [h2] at h
    exact h
  · exact keplerLoop_mirror M e 12 M

/-- C2: for every eccentricity in `[0, 0.95]` and every mean anomaly in
`[0, 2π)` the value `E` returned by `solveKepler` (at most 12 Newton steps,
step tolerance `1e-8`, first guess `π` above eccentricity `0.8`) satisfies
`|E - e sin E - M| ≤ 1e-6`. -/
theorem solveKepler_residual (M e : ℝ) (he0 : 0 ≤ e) (he : e ≤ 0.95) (hM0 : 0 ≤ M)
    (hM : M < 2 * π) :
    |solveKepler realMath M e - e * realMath.sin (solveKepler realMath M e) - M| ≤ 1e-6 := by
  show |solveKepler realMath M e - e * sin (solveKepler realMath M e) - M| ≤ 1e-6
  rcases le_or_lt M π with hhalf | hhalf
  · exact solveKepler_residual_half M e he0 he hM0 hhalf
  · have h := solveKepler_residual_half (2 * π - M) e he0 he (by linarith) (by linarith)
    have hmirror := solveKepler_mirror (2 * π - M) e
    have hMM : 2 * π - (2 * π - M) = M := by ring
    rw [hMM] at hmirror
    rw [hmirror, sin_two_pi_sub]
    rw [← abs_neg]
    have heq : -(2 * π - solveKepler realMath (2 * π - M) e
          - e * -sin (solveKepler realMath (2 * π - M) e) - M)
        = solveKepler realMath (2 * π - M) e
          - e * sin (solveKepler realMath (2 * π - M) e) - (2 * π - M) := by ring
    rw [heq]
    exact h

theorem solveKepler_residual_witness :
    |solveKepler realMath 1 0.5 - 0.5 * realMath.sin (solveKepler realMath 1 0.5) - 1| ≤ 1e-6 :=
  solveKepler_residual 1 0.5 (by norm_num) (by norm_num) (by norm_num)
    (by linarith [pi_gt_three])

end Solver

/-! ## The orbit tessellator -/

section Kepler
variable {α : Type} [LinearOrderedField α] [FloorRing α]

/-- An exact root of Kepler's equation is returned unchanged by the loop. -/
theorem keplerLoop_root (m : JSMath α) (M e E : α) (hroot : E - e * m.sin E - M = 0)
    (fuel : Nat) : keplerLoop m M e fuel E = E := by
  cases fuel with
  | zero => rfl
  | succ k =>
    have htol : |(0 : α)| < (1e-8 : α) := by rw [abs_zero]; norm_num
    simp only [keplerLoop, hroot, zero_div, sub_zero, htol, if_true]

theorem generateOrbitVertices_eq (m : JSMath α) (el : OrbitalElements α) (a : α)
    (segments : Nat) (ha : el.semiMajorAxis = some a) (hne : a ≠ 0) :
    generateOrbitVertices m (some el) segments
      = (List.range (segments + 1)).map (orbitVertex m el a segments) := by
  simp [generateOrbitVertices, ha, hne]

theorem generateOrbitVertices_length (m : JSMath α) (el : OrbitalElements α) (a : α)
    (segments : Nat) (ha : el.semiMajorAxis = some a) (hne : a ≠ 0) :
    (generateOrbitVertices m (some el) segments).length = segments + 1 := by
  rw [generateOrbitVertices_eq m el a segments ha hne]
  simp

theorem generateOrbitVertices_head (m : JSMath α) (el : OrbitalElements α) (a : α)
    (segments : Nat) (ha : el.semiMajorAxis = some a) (hne : a ≠ 0) :
    (generateOrbitVertices m (some el) segments).head? = some (orbitVertex m el a segments 0) := by
  rw [generateOrbitVertices_eq m el a segments ha hne, List.range_succ_eq_map]
  rfl

theorem generateOrbitVertices_getLast (m : JSMath α) (el : OrbitalElements α) (a : α)
    (segments : Nat) (ha : el.semiMajorAxis = some a) (hne : a ≠ 0) :
    (generateOrbitVertices m (some el) segments).getLast?
      = some (orbitVertex m el a segments segments) := by
  rw [generateOrbitVertices_eq m el a segments ha hne, List.range_succ, List.map_append]
  simp

end Kepler

/-- C3 (amended): for a positive `semiMajorAxis` and a positive `segmentCount`,
`generateOrbitVertices` returns exactly `segmentCount + 1` points; the first is
the vertex computed for mean anomaly `0` and the last the vertex computed for
mean anomaly `2π`, one full revolution later.  This holds for every arithmetic
and math library. -/
theorem generateOrbitVertices_revolution {α : Type} [LinearOrderedField α] [FloorRing α]
    (m : JSMath α) (el : OrbitalElements α) (a : α) (segments : Nat)
    (ha : el.semiMajorAxis = some a) (hpos : 0 < a) (hseg : 0 < segments) :
    (generateOrbitVertices m (some el) segments).length = segments + 1
      ∧ (generateOrbitVertices m (some el) segments).head? = some (vertexAtAnomaly m el a 0)
      ∧ (generateOrbitVertices m (some el) segments).getLast?
          = some (vertexAtAnomaly m el a (TWO_PI m)) := by
  have hn : (segments : α) ≠ 0 := Nat.cast_ne_zero.mpr (Nat.pos_iff_ne_zero.mp hseg)
  have hfirst : orbitVertex m el a segments 0 = vertexAtAnomaly m el a 0 := by
    have h0 : TWO_PI m * (((0 : ℕ) : α) / (segments : α)) = 0 := by
      rw [Nat.cast_zero, zero_div, mul_zero]
    simp only [orbitVertex, vertexAtAnomaly, h0]
  have hlast : orbitVertex m el a segments segments = vertexAtAnomaly m el a (TWO_PI m) := by
    have h1 : TWO_PI m * ((segments : α) / (segments : α)) = TWO_PI m := by
      rw [div_self hn, mul_one]
    simp only [orbitVertex, vertexAtAnomaly, h1]
  refine ⟨generateOrbitVertices_length m el a segments ha hpos.ne', ?_, ?_⟩
  · rw [generateOrbitVertices_head m el a segments ha hpos.ne', hfirst]
  · rw [generateOrbitVertices_getLast m el a segments ha hpos.ne', hlast]

theorem generateOrbitVertices_revolution_witness :
    cometOrbit.semiMajorAxis = some 1 ∧ (0 : ℝ) < 1 ∧ 0 < 4
      ∧ (generateOrbitVertices realMath (some cometOrbit) 4).length = 4 + 1
      ∧ (generateOrbitVertices realMath (some cometOrbit) 4).head?
          = some (vertexAtAnomaly realMath cometOrbit 1 0)
      ∧ (generateOrbitVertices realMath (some cometOrbit) 4).getLast?
          = some (vertexAtAnomaly realMath cometOrbit 1 (TWO_PI realMath)) :=
  have h := generateOrbitVertices_revolution realMath cometOrbit 1 4 rfl one_pos (by decide)
  ⟨rfl, one_pos, by decide, h.1, h.2.1, h.2.2⟩

/-- One Newton step for mean anomaly `0` from a point of `(0, π]` lands in
`(0, π)`, strictly below the point. -/
theorem newton_zero_step (e E : ℝ) (he0 : 0 < e) (he1 : e < 1) (h0 : 0 < E) (hpi : E ≤ Real.pi) :
    0 < E - (E - e * Real.sin E - 0) / (1 - e * Real.cos E)
      ∧ E - (E - e * Real.sin E - 0) / (1 - e * Real.cos E) < E := by
  have hden : 0 < 1 - e * Real.cos E := by
    have hc : Real.cos E ≤ 1 := Real.cos_le_one E
    nlinarith
  have hsin : Real.sin E < E := Real.sin_lt h0
  have hsin0 : 0 ≤ Real.sin E := Real.sin_nonneg_of_nonneg_of_le_pi h0.le hpi
  have hnum : 0 < E - e * Real.sin E - 0 := by nlinarith
  have hkey := mul_cos_lt_sin E h0 hpi
  constructor
  · rw [sub_pos, div_lt_iff₀ hden]
    nlinarith
  · have := div_pos hnum hden
    linarith

theorem keplerLoop_zero_mem (e : ℝ) (he0 : 0 < e) (he1 : e < 1) (fuel : Nat) :
    ∀ E : ℝ, 0 < E → E ≤ Real.pi →
      0 < keplerLoop realMath 0 e (fuel + 1) E
        ∧ keplerLoop realMath 0 e (fuel + 1) E < Real.pi := by
  induction fuel with
  | zero =>
    intro E h0 hpi
    obtain ⟨h1, h2⟩ := newton_zero_step e E he0 he1 h0 hpi
    simp only [keplerLoop, realMath]
    split_ifs
    · exact ⟨h1, by linarith⟩
    · exact ⟨h1, by linarith⟩
  | succ k ih =>
    intro E h0 hpi
    obtain ⟨h1, h2⟩ := newton_zero_step e E he0 he1 h0 hpi
    rw [keplerLoop]
    simp only [realMath] at h1 h2 ⊢
    split_ifs
    · exact ⟨h1, by linarith⟩
    · exact ih _ h1 (by linarith)

theorem solveKepler_comet_first :
    0 < solveKepler realMath 0 0.9999 ∧ solveKepler realMath 0 0.9999 < Real.pi := by
  have hstart : (0.9999 : ℝ) > 0.8 := by norm_num
  rw [solveKepler, if_pos hstart]
  exact keplerLoop_zero_mem 0.9999 (by norm_num) (by norm_num) 11 Real.pi Real.pi_pos le_rfl

theorem solveKepler_comet_last :
    solveKepler realMath (Real.pi * 2) 0.9999 = 2 * Real.pi - solveKepler realMath 0 0.9999 := by
  have hstart : (0.9999 : ℝ) > 0.8 := by norm_num
  simp only [solveKepler, if_pos hstart]
  have h := keplerLoop_mirror 0 0.9999 12 Real.pi
  have h1 : 2 * Real.pi - 0 = Real.pi * 2 := by ring
  have h2 : 2 * Real.pi - Real.pi = Real.pi := by ring
  rw [h1, h2] at h
  exact h

/-- The `y` coordinate of a vertex in the reference plane (all three angles
zero) for eccentric anomaly `E`. -/
theorem sin_atan2_sign (e E : ℝ) (he0 : 0 ≤ e) (he1 : e < 1) (hs : Real.sin E ≠ 0) :
    Real.sin (realMath.atan2 (Real.sqrt (1 - e * e) * Real.sin E) (Real.cos E - e))
      = Real.sqrt (1 - e * e) * Real.sin E
          / Complex.abs ⟨Real.cos E - e, Real.sqrt (1 - e * e) * Real.sin E⟩
    ∧ 0 < Complex.abs ⟨Real.cos E - e, Real.sqrt (1 - e * e) * Real.sin E⟩ := by
  have hsqrt : 0 < Real.sqrt (1 - e * e) := Real.sqrt_pos.mpr (by nlinarith)
  refine ⟨by simp only [realMath]; rw [Complex.sin_arg], ?_⟩
  rw [AbsoluteValue.pos_iff]
  intro hz
  have him := congrArg Complex.im hz
  simp only [Complex.zero_im] at him
  exact (mul_ne_zero hsqrt.ne' hs) him

theorem orbitVertex_comet_y (index : Nat) :
    (orbitVertex realMath cometOrbit 1 4 index).y
      = 1 * (1 - 0.9999 * Real.cos (solveKepler realMath (TWO_PI realMath * ((index : ℝ) / (4 : ℕ))) 0.9999))
        * Real.sin (realMath.atan2
            (Real.sqrt (1 - 0.9999 * 0.9999)
              * Real.sin (solveKepler realMath (TWO_PI realMath * ((index : ℝ) / (4 : ℕ))) 0.9999))
            (Real.cos (solveKepler realMath (TWO_PI realMath * ((index : ℝ) / (4 : ℕ))) 0.9999)
              - 0.9999)) := by
  simp [orbitVertex, rotateToParent, cometOrbit, orZero, realMath]

theorem radius_comet_pos (E : ℝ) : 0 < 1 * (1 - 0.9999 * Real.cos E) := by
  have := Real.cos_le_one E
  linarith

theorem orbitVertex_comet_first_y : 0 < (orbitVertex realMath cometOrbit 1 4 0).y := by
  obtain ⟨hE0, hEpi⟩ := solveKepler_comet_first
  have hsin : 0 < Real.sin (solveKepler realMath 0 0.9999) := Real.sin_pos_of_pos_of_lt_pi hE0 hEpi
  obtain ⟨hval, habs⟩ := sin_atan2_sign 0.9999 (solveKepler realMath 0 0.9999) (by norm_num)
    (by norm_num) hsin.ne'
  have hM : TWO_PI realMath * (((0 : ℕ) : ℝ) / (4 : ℕ)) = 0 := by simp
  rw [orbitVertex_comet_y, hM, hval]
  have hsqrt : 0 < Real.sqrt (1 - 0.9999 * 0.9999) := Real.sqrt_pos.mpr (by norm_num)
  exact mul_pos (radius_comet_pos _) (div_pos (mul_pos hsqrt hsin) habs)

theorem orbitVertex_comet_last_y : (orbitVertex realMath cometOrbit 1 4 4).y < 0 := by
  obtain ⟨hE0, hEpi⟩ := solveKepler_comet_first
  have hsin : 0 < Real.sin (solveKepler realMath 0 0.9999) := Real.sin_pos_of_pos_of_lt_pi hE0 hEpi
  have hsin' : Real.sin (solveKepler realMath (Real.pi * 2) 0.9999) < 0 := by
    rw [solveKepler_comet_last, Real.sin_two_pi_sub]
    linarith
  obtain ⟨hval, habs⟩ := sin_atan2_sign 0.9999 (solveKepler realMath (Real.pi * 2) 0.9999)
    (by norm_num) (by norm_num) hsin'.ne
  have hM : TWO_PI realMath * (((4 : ℕ) : ℝ) / (4 : ℕ)) = Real.pi * 2 := by
    simp [TWO_PI, realMath]
  rw [orbitVertex_comet_y, hM, hval]
  have hsqrt : 0 < Real.sqrt (1 - 0.9999 * 0.9999) := Real.sqrt_pos.mpr (by norm_num)
  exact mul_neg_of_pos_of_neg (radius_comet_pos _)
    (div_neg_of_neg_of_pos (mul_neg_of_pos_of_neg hsqrt hsin') habs)

/-- C3 as stated fails: for the orbit with `semiMajorAxis` 1 and eccentricity
`0.9999` in the reference plane and 4 segments, the five points returned start
above and end below the major axis (the solves for mean anomaly `0` and `2π`
both start at `π` and stop short of the root), so the first point is not the
last. -/
theorem generateOrbitVertices_comet_not_closed :
    (generateOrbitVertices realMath (some cometOrbit) 4).length = 4 + 1
      ∧ (generateOrbitVertices realMath (some cometOrbit) 4).head?
          ≠ (generateOrbitVertices realMath (some cometOrbit) 4).getLast? := by
  have hne : (1 : ℝ) ≠ 0 := one_ne_zero
  refine ⟨generateOrbitVertices_length realMath cometOrbit 1 4 rfl hne, ?_⟩
  rw [generateOrbitVertices_head realMath cometOrbit 1 4 rfl hne,
    generateOrbitVertices_getLast realMath cometOrbit 1 4 rfl hne]
  intro h
  have hy := congrArg Vec3.y (Option.some.inj h)
  have h1 := orbitVertex_comet_first_y
  have h2 := orbitVertex_comet_last_y
  rw [hy] at h1
  exact lt_asymm h1 h2

/-! ## Guards, order of the output and the circular solve -/

section Generic
variable {α : Type} [LinearOrderedField α] [FloorRing α]

/-- C13: for eccentricity `0` and every mean anomaly `M`, `solveKepler M 0`
returns exactly `M`, whatever the math library. -/
theorem solveKepler_circular (m : JSMath α) (M : α) : solveKepler m M 0 = M := by
  have hstart : ¬ (0 : α) > 0.8 := by norm_num
  rw [solveKepler, if_neg hstart]
  exact keplerLoop_root m M 0 M (by ring) 12

/-- The guard of `generateOrbitVertices`: absent elements, an absent
`semiMajorAxis` and a zero `semiMajorAxis` give the empty sequence. -/
theorem generateOrbitVertices_empty (m : JSMath α) (segments : Nat) :
    generateOrbitVertices m none segments = []
      ∧ (∀ el : OrbitalElements α, el.semiMajorAxis = none →
          generateOrbitVertices m (some el) segments = [])
      ∧ (∀ el : OrbitalElements α, el.semiMajorAxis = some 0 →
          generateOrbitVertices m (some el) segments = []) := by
  refine ⟨rfl, ?_, ?_⟩
  · intro el h; simp [generateOrbitVertices, h]
  · intro el h; simp [generateOrbitVertices, h]

/-- C15: `bodiesWithState` has the length of the input list and its entries
carry the input bodies (name and authored fields) in the input order. -/
theorem computeEphemerides_order (m : JSMath α) (bodies : List (Body α)) (timeDays : α) :
    (computeEphemerides m bodies timeDays).bodiesWithState.length = bodies.length
      ∧ (computeEphemerides m bodies timeDays).bodiesWithState.map (fun s => s.body) = bodies
      ∧ ∀ (k : Nat) (body : Body α), bodies[k]? = some body →
          ∃ s, (computeEphemerides m bodies timeDays).bodiesWithState[k]? = some s
            ∧ s.body = body ∧ s.body.name = body.name := by
  refine ⟨runPass_length m timeDays bodies, runPass_bodies m timeDays bodies, ?_⟩
  intro k body hk
  obtain ⟨_, hget⟩ := runPass_split m timeDays bodies k body hk
  exact ⟨_, hget, entryFor_body _ _ _ _, by rw [entryFor_body]⟩

end Generic

/-- C14 at the failing input: for a negative `semiMajorAxis` the guard does not
fire and `generateOrbitVertices` returns `segments + 1` points, not the empty
sequence. -/
theorem generateOrbitVertices_negative_axis :
    degenerateOrbit.semiMajorAxis = some (-1)
      ∧ (generateOrbitVertices realMath (some degenerateOrbit) 4).length = 5
      ∧ generateOrbitVertices realMath (some degenerateOrbit) 4 ≠ [] := by
  have hlen : (generateOrbitVertices realMath (some degenerateOrbit) 4).length = 5 :=
    generateOrbitVertices_length realMath degenerateOrbit (-1) 4 rfl (by norm_num)
  refine ⟨rfl, hlen, ?_⟩
  intro h
  rw [h] at hlen
  simp at hlen

/-! ## Normalisation of the mean anomaly and periodicity -/

/-- `normalizeAngle` returns the representative of the angle in `[0, 2π)`. -/
theorem normalizeAngle_eq (x : ℝ) :
    normalizeAngle realMath x = Real.pi * 2 * Int.fract (x / (Real.pi * 2)) := by
  have hT : 0 < Real.pi * 2 := by linarith [Real.pi_pos]
  obtain ⟨q, rfl⟩ : ∃ q, x = Real.pi * 2 * q := ⟨x / (Real.pi * 2), by field_simp⟩
  have hq' : Real.pi * 2 * q / (Real.pi * 2) = q := mul_div_cancel_left₀ q hT.ne'
  have hfr := Int.fract_nonneg q
  simp only [normalizeAngle, jsRem, truncate, TWO_PI, realMath, hq']
  by_cases hq : 0 ≤ q
  · rw [if_pos hq]
    have hval : Real.pi * 2 * q - Real.pi * 2 * (⌊q⌋ : ℝ) = Real.pi * 2 * Int.fract q := by
      rw [← Int.self_sub_floor]; ring
    rw [hval, if_neg (not_lt.mpr (mul_nonneg hT.le hfr))]
  · rw [if_neg hq]
    by_cases hz : Int.fract q = 0
    · have hceil : (⌈q⌉ : ℝ) = q := by
        have hfl : ((⌊q⌋ : ℤ) : ℝ) = q := by
          have := Int.self_sub_floor q
          rw [hz] at this
          linarith
        rw [← hfl, Int.ceil_intCast]
      have hval : Real.pi * 2 * q - Real.pi * 2 * (⌈q⌉ : ℝ) = 0 := by
        rw [hceil]; ring
      rw [hval, if_neg (lt_irrefl 0), hz, mul_zero]
    · have hceil := Int.ceil_eq_add_one_sub_fract hz
      have hval : Real.pi * 2 * q - Real.pi * 2 * (⌈q⌉ : ℝ)
          = Real.pi * 2 * (Int.fract q - 1) := by
        rw [hceil]; ring
      have hlt : Int.fract q < 1 := Int.fract_lt_one _
      have hneg : Real.pi * 2 * (Int.fract q - 1) < 0 :=
        mul_neg_of_pos_of_neg hT (by linarith)
      rw [hval, if_pos hneg]
      ring

theorem normalizeAngle_add_two_pi (x : ℝ) :
    normalizeAngle realMath (x + Real.pi * 2) = normalizeAngle realMath x := by
  have hT : Real.pi * 2 ≠ 0 := by linarith [Real.pi_pos]
  rw [normalizeAngle_eq, normalizeAngle_eq, add_div, div_self hT, Int.fract_add_one]

theorem normalizeAngle_of_mem (x : ℝ) (h0 : 0 ≤ x) (h1 : x < Real.pi * 2) :
    normalizeAngle realMath x = x := by
  have hT : 0 < Real.pi * 2 := by linarith [Real.pi_pos]
  have hfr : Int.fract (x / (Real.pi * 2)) = x / (Real.pi * 2) :=
    Int.fract_eq_self.mpr ⟨div_nonneg h0 hT.le, (div_lt_one hT).mpr h1⟩
  rw [normalizeAngle_eq, hfr]
  field_simp

theorem normalizeAngle_sub (x : ℝ) :
    normalizeAngle realMath x = x - (⌊x / (Real.pi * 2)⌋ : ℝ) * (2 * Real.pi) := by
  have hT : Real.pi * 2 ≠ 0 := by linarith [Real.pi_pos]
  rw [normalizeAngle_eq, ← Int.self_sub_floor]
  field_simp
  ring

theorem cos_normalizeAngle (x : ℝ) : Real.cos (normalizeAngle realMath x) = Real.cos x := by
  rw [normalizeAngle_sub, Real.cos_sub_int_mul_two_pi]

theorem sin_normalizeAngle (x : ℝ) : Real.sin (normalizeAngle realMath x) = Real.sin x := by
  rw [normalizeAngle_sub, Real.sin_sub_int_mul_two_pi]

theorem elementsToCartesian_of_pos (el : OrbitalElements ℝ) (a s : ℝ)
    (ha : el.semiMajorAxis = some a) (hpos : 0 < a) :
    elementsToCartesian realMath el s = elementsToCartesianAt realMath el a s := by
  have hnd : ¬ (a = 0 ∨ a ≤ 0) := by
    rintro (h | h)
    · exact hpos.ne' h
    · exact absurd hpos (not_lt.mpr h)
  simp only [elementsToCartesian, ha, if_neg hnd]

/-- In exact real arithmetic, advancing the elapsed time by the returned
orbital period leaves the record returned by `elementsToCartesian` unchanged:
`meanMotion * period` is `2π` and `normalizeAngle` absorbs it.  (In double
precision `meanMotion * (t + period)` is not `meanMotion * t + 2π`, so this
says nothing about bit-for-bit equality of the program's two results.) -/
theorem elementsToCartesian_periodic (el : OrbitalElements ℝ) (a t P : ℝ)
    (ha : el.semiMajorAxis = some a) (hpos : 0 < a)
    (hP : (elementsToCartesian realMath el t).orbitalPeriod = some P) :
    elementsToCartesian realMath el (t + P) = elementsToCartesian realMath el t := by
  rw [elementsToCartesian_of_pos el a t ha hpos] at hP
  rw [elementsToCartesian_of_pos el a t ha hpos, elementsToCartesian_of_pos el a (t + P) ha hpos]
  simp only [elementsToCartesianAt, periodOf] at hP
  split_ifs at hP with hzero
  have hPeq : P = TWO_PI realMath / realMath.sqrt (GAUSSIAN_GM / a ^ 3) :=
    (Option.some.inj hP).symm
  have hangle : el.meanAnomalyAtEpoch * DEG2RAD realMath
        + realMath.sqrt (GAUSSIAN_GM / a ^ 3) * (t + P)
      = el.meanAnomalyAtEpoch * DEG2RAD realMath
        + realMath.sqrt (GAUSSIAN_GM / a ^ 3) * t + Real.pi * 2 := by
    rw [hPeq, mul_add, mul_div_cancel₀ _ hzero]
    simp only [TWO_PI, realMath]
    ring
  simp only [elementsToCartesianAt]
  rw [hangle, normalizeAngle_add_two_pi]

/-! ## The rotation into the parent frame -/

section Generic
variable {α : Type} [LinearOrderedField α] [FloorRing α]

theorem solveKepler_ecc_zero (m : JSMath α) (M : α) : solveKepler m M 0 = M := by
  have hstart : ¬ (0 : α) > 0.8 := by norm_num
  rw [solveKepler, if_neg hstart]
  exact keplerLoop_root m M 0 M (by ring) 12

theorem orZero_eq (x : α) : orZero x = x := by
  unfold orZero
  split_ifs with h
  · exact h.symm
  · rfl

end Generic

/-- The point `cos E - e + i √(1 - e²) sin E` has modulus `1 - e cos E`. -/
theorem abs_orbital (e E : ℝ) (he0 : 0 ≤ e) (he1 : e < 1) :
    Complex.abs ⟨Real.cos E - e, Real.sqrt (1 - e * e) * Real.sin E⟩ = 1 - e * Real.cos E := by
  have hc := Real.cos_le_one E
  have hpos : 0 ≤ 1 - e * Real.cos E := by nlinarith
  have hsq : Real.sqrt (1 - e * e) * Real.sqrt (1 - e * e) = 1 - e * e :=
    Real.mul_self_sqrt (by nlinarith)
  have hsc := Real.sin_sq_add_cos_sq E
  rw [Complex.abs_apply, Complex.normSq_mk]
  have hval : (Real.cos E - e) * (Real.cos E - e)
      + Real.sqrt (1 - e * e) * Real.sin E * (Real.sqrt (1 - e * e) * Real.sin E)
      = (1 - e * Real.cos E) ^ 2 := by
    have h1 : Real.sqrt (1 - e * e) * Real.sin E * (Real.sqrt (1 - e * e) * Real.sin E)
        = (1 - e * e) * Real.sin E ^ 2 := by
      have hre : Real.sqrt (1 - e * e) * Real.sin E * (Real.sqrt (1 - e * e) * Real.sin E)
          = Real.sqrt (1 - e * e) * Real.sqrt (1 - e * e) * Real.sin E ^ 2 := by ring
      rw [hre, hsq]
    rw [h1]
    have hs2 : Real.sin E ^ 2 = 1 - Real.cos E ^ 2 := by linarith
    rw [hs2]; ring
  rw [hval, Real.sqrt_sq hpos]

/-- The cosine and sine of the true anomaly returned by `atan2`. -/
theorem cos_sin_trueAnomaly (e E : ℝ) (he0 : 0 ≤ e) (he1 : e < 1) :
    Real.cos (realMath.atan2 (Real.sqrt (1 - e * e) * Real.sin E) (Real.cos E - e))
        = (Real.cos E - e) / (1 - e * Real.cos E)
      ∧ Real.sin (realMath.atan2 (Real.sqrt (1 - e * e) * Real.sin E) (Real.cos E - e))
        = Real.sqrt (1 - e * e) * Real.sin E / (1 - e * Real.cos E) := by
  have hc := Real.cos_le_one E
  have hpos : 0 < 1 - e * Real.cos E := by nlinarith
  have habs := abs_orbital e E he0 he1
  have hne : (⟨Real.cos E - e, Real.sqrt (1 - e * e) * Real.sin E⟩ : ℂ) ≠ 0 := by
    intro hz
    rw [hz, map_zero] at habs
    linarith
  constructor
  · show Real.cos (Complex.arg ⟨Real.cos E - e, Real.sqrt (1 - e * e) * Real.sin E⟩) = _
    rw [Complex.cos_arg hne, habs]
  · show Real.sin (Complex.arg ⟨Real.cos E - e, Real.sqrt (1 - e * e) * Real.sin E⟩) = _
    rw [Complex.sin_arg, habs]

/-- The rotation into the parent frame preserves the squared length. -/
theorem rotateToParent_norm (i omega w x y : ℝ) :
    (rotateToParent realMath i omega w x y).x ^ 2 + (rotateToParent realMath i omega w x y).y ^ 2
        + (rotateToParent realMath i omega w x y).z ^ 2
      = x ^ 2 + y ^ 2 := by
  have hO := Real.sin_sq_add_cos_sq omega
  have hI := Real.sin_sq_add_cos_sq i
  have hW := Real.sin_sq_add_cos_sq w
  simp only [rotateToParent, realMath]
  linear_combination
    (x ^ 2 * (Real.cos w ^ 2 + Real.sin w ^ 2 * Real.cos i ^ 2)
      + y ^ 2 * (Real.sin w ^ 2 + Real.cos w ^ 2 * Real.cos i ^ 2)
      - 2 * x * y * Real.cos w * Real.sin w * (1 - Real.cos i ^ 2)) * hO
    + (x ^ 2 * Real.sin w ^ 2 + y ^ 2 * Real.cos w ^ 2 + 2 * x * y * Real.cos w * Real.sin w) * hI
    + (x ^ 2 + y ^ 2) * hW

theorem orbital_plane_norm (r ν : ℝ) :
    (r * Real.cos ν) ^ 2 + (r * Real.sin ν) ^ 2 = r ^ 2 := by
  linear_combination r ^ 2 * Real.sin_sq_add_cos_sq ν

/-- C16: for a positive `semiMajorAxis` `a` and an eccentricity `e` in `[0, 1)`
the Euclidean norm of the relative position returned by `elementsToCartesian`
is the returned `radiusVector`, which is `a (1 - e cos E)` for the solved
eccentric anomaly `E` and lies in `[a (1 - e), a (1 + e)]`; the
`distanceFromParent` of the body's entry in `computeEphemerides` is that
`radiusVector`. -/
theorem relativePosition_norm (el : OrbitalElements ℝ) (a t : ℝ)
    (ha : el.semiMajorAxis = some a) (hpos : 0 < a)
    (he0 : 0 ≤ el.eccentricity) (he1 : el.eccentricity < 1) :
    Real.sqrt ((elementsToCartesian realMath el t).position.x ^ 2
          + (elementsToCartesian realMath el t).position.y ^ 2
          + (elementsToCartesian realMath el t).position.z ^ 2)
        = (elementsToCartesian realMath el t).radiusVector
      ∧ (elementsToCartesian realMath el t).radiusVector
        = a * (1 - el.eccentricity * Real.cos (solveKepler realMath
            (normalizeAngle realMath (el.meanAnomalyAtEpoch * DEG2RAD realMath
              + realMath.sqrt (GAUSSIAN_GM / a ^ 3) * t)) el.eccentricity))
      ∧ a * (1 - el.eccentricity) ≤ (elementsToCartesian realMath el t).radiusVector
      ∧ (elementsToCartesian realMath el t).radiusVector ≤ a * (1 + el.eccentricity)
      ∧ ∀ (bodies : List (Body ℝ)) (k : Nat) (body : Body ℝ),
          bodies[k]? = some body → body.orbit = some el →
          ∃ s, (computeEphemerides realMath bodies t).bodiesWithState[k]? = some s
            ∧ s.distanceFromParent = (elementsToCartesian realMath el t).radiusVector := by
  have hform : (elementsToCartesian realMath el t).radiusVector
      = a * (1 - el.eccentricity * Real.cos (solveKepler realMath
          (normalizeAngle realMath (el.meanAnomalyAtEpoch * DEG2RAD realMath
            + realMath.sqrt (GAUSSIAN_GM / a ^ 3) * t)) el.eccentricity)) := by
    rw [elementsToCartesian_of_pos el a t ha hpos]; rfl
  have hcos1 := Real.cos_le_one (solveKepler realMath
      (normalizeAngle realMath (el.meanAnomalyAtEpoch * DEG2RAD realMath
        + realMath.sqrt (GAUSSIAN_GM / a ^ 3) * t)) el.eccentricity)
  have hcos2 := Real.neg_one_le_cos (solveKepler realMath
      (normalizeAngle realMath (el.meanAnomalyAtEpoch * DEG2RAD realMath
        + realMath.sqrt (GAUSSIAN_GM / a ^ 3) * t)) el.eccentricity)
  have hlo : a * (1 - el.eccentricity) ≤ (elementsToCartesian realMath el t).radiusVector := by
    rw [hform]
    apply mul_le_mul_of_nonneg_left _ hpos.le
    nlinarith
  have hhi : (elementsToCartesian realMath el t).radiusVector ≤ a * (1 + el.eccentricity) := by
    rw [hform]
    apply mul_le_mul_of_nonneg_left _ hpos.le
    nlinarith
  have hr0 : 0 ≤ (elementsToCartesian realMath el t).radiusVector :=
    le_trans (mul_nonneg hpos.le (by linarith)) hlo
  have hnorm : Real.sqrt ((elementsToCartesian realMath el t).position.x ^ 2
        + (elementsToCartesian realMath el t).position.y ^ 2
        + (elementsToCartesian realMath el t).position.z ^ 2)
      = (elementsToCartesian realMath el t).radiusVector := by
    have hsum : (elementsToCartesian realMath el t).position.x ^ 2
        + (elementsToCartesian realMath el t).position.y ^ 2
        + (elementsToCartesian realMath el t).position.z ^ 2
        = (elementsToCartesian realMath el t).radiusVector ^ 2 := by
      rw [elementsToCartesian_of_pos el a t ha hpos]
      simp only [elementsToCartesianAt]
      rw [rotateToParent_norm]
      exact orbital_plane_norm _ _
    rw [hsum, Real.sqrt_sq hr0]
  refine ⟨hnorm, hform, hlo, hhi, ?_⟩
  intro bodies k body hk horbit
  obtain ⟨_, hget⟩ := runPass_split realMath t bodies k body hk
  refine ⟨_, hget, ?_⟩
  simp only [entryFor, horbit, orbitingEntry]
  exact hnorm

theorem relativePosition_norm_witness :
    Real.sqrt ((elementsToCartesian realMath earthOrbit 7).position.x ^ 2
          + (elementsToCartesian realMath earthOrbit 7).position.y ^ 2
          + (elementsToCartesian realMath earthOrbit 7).position.z ^ 2)
        = (elementsToCartesian realMath earthOrbit 7).radiusVector :=
  (relativePosition_norm earthOrbit 1 7 rfl one_pos (le_refl (0 : ℝ))
    (show (0 : ℝ) < 1 from one_pos)).1

/-- C12: for `semiMajorAxis` 1 the orbital period returned by
`elementsToCartesian`, whatever the other elements and the elapsed time, is
within `0.01` of `365.25`, and it is the `orbitalPeriodDays` of the body's
entry in `computeEphemerides`. -/
theorem period_one_au (el : OrbitalElements ℝ) (t : ℝ) (ha : el.semiMajorAxis = some 1) :
    ∃ P, (elementsToCartesian realMath el t).orbitalPeriod = some P
      ∧ |P - 365.25| ≤ 0.01
      ∧ ∀ (bodies : List (Body ℝ)) (k : Nat) (body : Body ℝ),
          bodies[k]? = some body → body.orbit = some el →
          ∃ s, (computeEphemerides realMath bodies t).bodiesWithState[k]? = some s
            ∧ s.orbitalPeriodDays = some P := by
  have hper := elementsToCartesian_period el 1 t ha one_pos
  rw [Real.one_rpow, mul_one] at hper
  refine ⟨2 * Real.pi / 0.01720209895, hper, ?_, ?_⟩
  · have h1 := Real.pi_gt_d6
    have h2 := Real.pi_lt_d6
    rw [abs_le]
    constructor
    · rw [le_sub_iff_add_le, le_div_iff₀ (by norm_num)]
      norm_num
      linarith
    · rw [sub_le_iff_le_add, div_le_iff₀ (by norm_num)]
      norm_num
      linarith
  · intro bodies k body hk horbit
    obtain ⟨_, hget⟩ := runPass_split realMath t bodies k body hk
    refine ⟨_, hget, ?_⟩
    simp only [entryFor, horbit, orbitingEntry]
    exact hper

theorem period_one_au_witness :
    ∃ P, (elementsToCartesian realMath earthOrbit 0).orbitalPeriod = some P
      ∧ |P - 365.25| ≤ 0.01 :=
  match period_one_au earthOrbit 0 rfl with
  | ⟨P, h1, h2, _⟩ => ⟨P, h1, h2⟩

/-! ## The tessellator against the state transform, and the circular orbit -/

/-- C17: for a positive `semiMajorAxis`, a positive `segmentCount` and an index
`k < segmentCount`, the `k`-th point of `generateOrbitVertices` is the
position returned by `elementsToCartesian` for the same elements with
`meanAnomalyAtEpoch = 360 k / segmentCount` degrees at elapsed time `0`. -/
theorem tessellator_agrees (el : OrbitalElements ℝ) (a : ℝ) (segments k : Nat)
    (ha : el.semiMajorAxis = some a) (hpos : 0 < a) (hk : k < segments) :
    (generateOrbitVertices realMath (some el) segments)[k]?
      = some (elementsToCartesian realMath
          { el with meanAnomalyAtEpoch := 360 * (k : ℝ) / (segments : ℝ) } 0).position := by
  have hn : (0 : ℝ) < (segments : ℝ) := Nat.cast_pos.mpr (by omega)
  have hget : (generateOrbitVertices realMath (some el) segments)[k]?
      = some (orbitVertex realMath el a segments k) := by
    rw [generateOrbitVertices_eq realMath el a segments ha hpos.ne']
    rw [List.getElem?_map, List.getElem?_range (by omega)]
    rfl
  have hangle : 360 * (k : ℝ) / (segments : ℝ) * DEG2RAD realMath
        + realMath.sqrt (GAUSSIAN_GM / a ^ 3) * 0
      = TWO_PI realMath * ((k : ℝ) / (segments : ℝ)) := by
    simp only [DEG2RAD, TWO_PI, realMath]
    field_simp
    ring
  have hfrac0 : 0 ≤ (k : ℝ) / (segments : ℝ) := div_nonneg (Nat.cast_nonneg k) hn.le
  have hfrac1 : (k : ℝ) / (segments : ℝ) < 1 :=
    (div_lt_one hn).mpr (Nat.cast_lt.mpr hk)
  have hnorm : normalizeAngle realMath (TWO_PI realMath * ((k : ℝ) / (segments : ℝ)))
      = TWO_PI realMath * ((k : ℝ) / (segments : ℝ)) := by
    have hT : 0 < TWO_PI realMath := by
      show 0 < Real.pi * 2
      linarith [Real.pi_pos]
    apply normalizeAngle_of_mem
    · exact mul_nonneg hT.le hfrac0
    · calc TWO_PI realMath * ((k : ℝ) / (segments : ℝ)) < TWO_PI realMath * 1 :=
          mul_lt_mul_of_pos_left hfrac1 hT
        _ = Real.pi * 2 := by rw [mul_one]; rfl
  rw [hget, elementsToCartesian_of_pos
    { el with meanAnomalyAtEpoch := 360 * (k : ℝ) / (segments : ℝ) } a 0 ha hpos]
  simp only [elementsToCartesianAt, orbitVertex, orZero_eq]
  rw [hangle, hnorm]

theorem tessellator_agrees_witness :
    (generateOrbitVertices realMath (some cometOrbit) 4)[1]?
      = some (elementsToCartesian realMath
          { cometOrbit with meanAnomalyAtEpoch := 360 * ((1 : ℕ) : ℝ) / ((4 : ℕ) : ℝ) } 0).position :=
  tessellator_agrees cometOrbit 1 4 1 rfl one_pos (by decide)

/-- C11: on a circular, uninclined orbit (eccentricity, the three angles and
the mean anomaly at epoch all zero) with a positive `semiMajorAxis` `a`,
`elementsToCartesian` returns the position `(a cos (n t), a sin (n t), 0)`
with `n` the mean motion; for `a = 1` this is `(1, 0, 0)` at `t = 0` and
`(0, 1, 0)` at a quarter of the returned period. -/
theorem circular_orbit_position (el : OrbitalElements ℝ) (a t : ℝ)
    (ha : el.semiMajorAxis = some a) (hpos : 0 < a) (he : el.eccentricity = 0)
    (hi : el.inclination = 0) (hnode : el.longitudeOfAscendingNode = 0)
    (hperi : el.argumentOfPeriapsis = 0) (hM0 : el.meanAnomalyAtEpoch = 0) :
    (elementsToCartesian realMath el t).position
        = ⟨a * Real.cos (Real.sqrt (GAUSSIAN_GM / a ^ 3) * t),
            a * Real.sin (Real.sqrt (GAUSSIAN_GM / a ^ 3) * t), 0⟩
      ∧ (a = 1 → (elementsToCartesian realMath el 0).position = ⟨1, 0, 0⟩)
      ∧ (a = 1 → ∀ P, (elementsToCartesian realMath el t).orbitalPeriod = some P →
          (elementsToCartesian realMath el (P / 4)).position = ⟨0, 1, 0⟩) := by
  have hgen : ∀ s : ℝ, (elementsToCartesian realMath el s).position
      = ⟨a * Real.cos (Real.sqrt (GAUSSIAN_GM / a ^ 3) * s),
          a * Real.sin (Real.sqrt (GAUSSIAN_GM / a ^ 3) * s), 0⟩ := by
    intro s
    rw [elementsToCartesian_of_pos el a s ha hpos]
    simp only [elementsToCartesianAt, he, hi, hnode, hperi, hM0, solveKepler_ecc_zero]
    obtain ⟨hc, hs⟩ := cos_sin_trueAnomaly 0
      (normalizeAngle realMath (0 * DEG2RAD realMath + realMath.sqrt (GAUSSIAN_GM / a ^ 3) * s))
      le_rfl one_pos
    have hc' : realMath.cos (realMath.atan2
        (realMath.sqrt (1 - 0 * 0) * realMath.sin
          (normalizeAngle realMath (0 * DEG2RAD realMath
            + realMath.sqrt (GAUSSIAN_GM / a ^ 3) * s)))
        (realMath.cos (normalizeAngle realMath (0 * DEG2RAD realMath
            + realMath.sqrt (GAUSSIAN_GM / a ^ 3) * s)) - 0))
        = Real.cos (Real.sqrt (GAUSSIAN_GM / a ^ 3) * s) := by
      refine hc.trans ?_
      rw [cos_normalizeAngle]
      simp [realMath]
    have hs' : realMath.sin (realMath.atan2
        (realMath.sqrt (1 - 0 * 0) * realMath.sin
          (normalizeAngle realMath (0 * DEG2RAD realMath
            + realMath.sqrt (GAUSSIAN_GM / a ^ 3) * s)))
        (realMath.cos (normalizeAngle realMath (0 * DEG2RAD realMath
            + realMath.sqrt (GAUSSIAN_GM / a ^ 3) * s)) - 0))
        = Real.sin (Real.sqrt (GAUSSIAN_GM / a ^ 3) * s) := by
      refine hs.trans ?_
      rw [sin_normalizeAngle]
      simp [realMath]
    rw [hc', hs']
    simp [rotateToParent, realMath]
  refine ⟨hgen t, ?_, ?_⟩
  · intro h1
    rw [hgen 0, h1]
    simp
  · intro h1 P hP
    rw [elementsToCartesian_of_pos el a t ha hpos] at hP
    simp only [elementsToCartesianAt, periodOf] at hP
    split_ifs at hP with hzero
    have hPeq : P = TWO_PI realMath / realMath.sqrt (GAUSSIAN_GM / a ^ 3) :=
      (Option.some.inj hP).symm
    have hquarter : Real.sqrt (GAUSSIAN_GM / a ^ 3) * (P / 4) = Real.pi / 2 := by
      have hzero' : Real.sqrt (GAUSSIAN_GM / a ^ 3) ≠ 0 := hzero
      rw [hPeq]
      show Real.sqrt (GAUSSIAN_GM / a ^ 3) * (Real.pi * 2 / Real.sqrt (GAUSSIAN_GM / a ^ 3) / 4)
        = Real.pi / 2
      generalize Real.sqrt (GAUSSIAN_GM / a ^ 3) = n at hzero'
      field_simp
      ring
    rw [hgen (P / 4), hquarter, h1]
    simp

theorem circular_orbit_position_witness :
    (elementsToCartesian realMath earthOrbit 0).position = ⟨1, 0, 0⟩ :=
  (circular_orbit_position earthOrbit 1 0 rfl one_pos rfl rfl rfl rfl rfl).2.1 rfl

end OrbitMath
